import Mathlib

/-!
Verification of the RevitMCP operation bridge and workflow executor.

This file gives a shallow embedding of the two cores of the repository:

* `RevitMCP.extension/lib/RevitMCP_Tools/external_event_handler.py` —
  the mutex-guarded request queue, result store and drain loop
  (`GeneralPurposeEventHandler.Execute`, `trigger_event`,
  `get_event_status`, `_cleanup_old_results`);
* `RevitMCP.extension/lib/RevitMCP_ExternalServer/server.py`, function
  `plan_and_execute_workflow_tool` — the declarative workflow executor
  together with its nested `substitute_placeholders` helper.

Python values flowing through these functions (JSON-ish parameter and
result objects) are modelled by the inductive type `Val`; Python strings
are modelled as `List Char`.  Machine-level details that the source
cannot observe (hash ordering of `dict`, unicode classes of `str.strip`)
are modelled at the granularity the source exercises and are commented
where they appear.
-/

namespace RevitMCP

/-- A single-quote character (`'`), used by Python `repr` of strings. -/
def sqc : Char := Char.ofNat 39

/-- Python values as they appear in request parameters, tool results and
the workflow result-chain store: strings, integers, booleans, `None`,
lists and string-keyed dictionaries. -/
inductive Val where
  | str (s : List Char)
  | int (n : Int)
  | bool (b : Bool)
  | null
  | list (xs : List Val)
  | dict (kvs : List (List Char × Val))

/-- Association-list lookup with decidable key equality; models Python
`dict` reads.  Dictionaries are represented as lists of pairs where an
assignment prepends, so `alookup` (first match wins) has exactly the
read semantics of Python `dict` assignment followed by lookup. -/
def alookup {α β : Type} [DecidableEq α] (k : α) : List (α × β) → Option β
  | [] => none
  | (k', v) :: rest => if k' = k then some v else alookup k rest

mutual

/-- Python `repr` of a `Val`.  For strings this is the single-quoted
form; the model does not escape quote or control characters inside the
string, which matches Python on the plain identifiers and digit strings
these programs traffic in. -/
def pyRepr : Val → List Char
  | .str s => sqc :: (s ++ [sqc])
  | .int n => (toString n).data
  | .bool b => if b then "True".data else "False".data
  | .null => "None".data
  | .list xs => "[".data ++ pyReprJoin xs ++ "]".data
  | .dict kvs => "\x7b".data ++ pyReprKVs kvs ++ "\x7d".data

/-- `", ".join` of the `repr`s of the elements of a list. -/
def pyReprJoin : List Val → List Char
  | [] => []
  | x :: rest => pyRepr x ++ (if rest.isEmpty then [] else ", ".data) ++ pyReprJoin rest

/-- The `'key': value` comma-separated rendering of a dict body. -/
def pyReprKVs : List (List Char × Val) → List Char
  | [] => []
  | (k, v) :: rest =>
      (sqc :: (k ++ [sqc])) ++ ": ".data ++ pyRepr v ++
        (if rest.isEmpty then [] else ", ".data) ++ pyReprKVs rest

end

/-- Python `str(value)`: identical to `repr` except on strings, which
render without quotes. -/
def pyStr (v : Val) : List Char :=
  match v with
  | .str s => s
  | v => pyRepr v

mutual

/-- Python `==` between two `Val`s.  `bool` compares equal to `int`
(`True == 1`), values of otherwise different types compare unequal.
Dict comparison is done entrywise in order; Python's `dict.__eq__` is
order-insensitive, but every dictionary these programs compare is
built literally with distinct keys in a fixed order, where the two
notions agree. -/
def pyEq : Val → Val → Bool
  | .str a, .str b => a == b
  | .int a, .int b => a == b
  | .bool a, .bool b => a == b
  | .bool a, .int b => (if a then (1 : Int) else 0) == b
  | .int a, .bool b => a == (if b then (1 : Int) else 0)
  | .null, .null => true
  | .list a, .list b => pyEqList a b
  | .dict a, .dict b => pyEqKVs a b
  | _, _ => false

/-- Elementwise `==` on Python lists. -/
def pyEqList : List Val → List Val → Bool
  | [], [] => true
  | a :: as, b :: bs => pyEq a b && pyEqList as bs
  | _, _ => false

/-- Entrywise `==` on dict bodies. -/
def pyEqKVs : List (List Char × Val) → List (List Char × Val) → Bool
  | [], [] => true
  | (ka, va) :: as, (kb, vb) :: bs => ka == kb && pyEq va vb && pyEqKVs as bs
  | _, _ => false

end

/-- Substring test on character lists (Python `key in str`). -/
def hasSub (key : List Char) : List Char → Bool
  | [] => key.isEmpty
  | c :: cs => key.isPrefixOf (c :: cs) || hasSub key cs

/-- Python `key in value` (`__contains__`): key membership for dicts,
substring test for strings, elementwise `==` for lists; numbers,
booleans and `None` are not iterable and raise `TypeError`. -/
def pyIn (key : List Char) (v : Val) : Except (List Char) Bool :=
  match v with
  | .dict kvs => .ok (kvs.any (fun kv => kv.1 == key))
  | .str s => .ok (hasSub key s)
  | .list xs => .ok (xs.any (fun x => pyEq x (.str key)))
  | .int _ => .error "TypeError: argument of type int is not iterable".data
  | .bool _ => .error "TypeError: argument of type bool is not iterable".data
  | .null => .error "TypeError: argument of type NoneType is not iterable".data

/-- Python `value[key]` with a string key: dict lookup (`KeyError` when
missing); string and list subscripts with a string key raise
`TypeError`. -/
def pyGetItem (v : Val) (key : List Char) : Except (List Char) Val :=
  match v with
  | .dict kvs =>
      match alookup key kvs with
      | some w => .ok w
      | none => .error ("KeyError: ".data ++ key)
  | .str _ => .error "TypeError: string indices must be integers".data
  | .list _ => .error "TypeError: list indices must be integers".data
  | .int _ => .error "TypeError: int object is not subscriptable".data
  | .bool _ => .error "TypeError: bool object is not subscriptable".data
  | .null => .error "TypeError: NoneType object is not subscriptable".data

/-! ### The placeholder pattern `${step_(\d+)_([^}]+)}`

`substitute_placeholders` (server.py lines 554-595) matches parameter
strings against the regex `\$\{step_(\d+)_([^}]+)\}`.  Because `\d+`
is a maximal digit run that must be followed by the literal `_`, and
`[^}]+` is a maximal nonempty run of non-`}` characters that must be
followed by `}`, the regex admits exactly one parse at any position,
implemented literally by `matchPH` below. -/

/-- Whitespace for Python `str.strip()`; the characters the source can
encounter in parameter strings. -/
def isPySpace (c : Char) : Bool :=
  c = ' ' || c = '\t' || c = '\n' || c = '\r'

/-- Python `str.strip()` on a character list: drop whitespace from both
ends. -/
def pyStrip (cs : List Char) : List Char :=
  ((cs.dropWhile isPySpace).reverse.dropWhile isPySpace).reverse

/-- Drop the literal pattern `p` from the front of `cs`, if present. -/
def stripPfx : List Char → List Char → Option (List Char)
  | [], rest => some rest
  | _ :: _, [] => none
  | p :: ps, c :: cs => if p = c then stripPfx ps cs else none

/-- The literal opening of the placeholder pattern: `${step_`. -/
def phOpen : List Char := ['$', '\x7b', 's', 't', 'e', 'p', '_']

/-- Try to match the regex `\$\{step_(\d+)_([^}]+)\}` at the head of
`cs`.  On success returns the digit group, the key group and the
characters after the closing brace. -/
def matchPH (cs : List Char) : Option (List Char × List Char × List Char) :=
  match stripPfx phOpen cs with
  | none => none
  | some r1 =>
    if (r1.takeWhile Char.isDigit).isEmpty then none
    else
      match r1.dropWhile Char.isDigit with
      | '_' :: r3 =>
        if (r3.takeWhile (fun c => c != '\x7d')).isEmpty then none
        else
          match r3.dropWhile (fun c => c != '\x7d') with
          | '\x7d' :: rest =>
              some (r1.takeWhile Char.isDigit,
                r3.takeWhile (fun c => c != '\x7d'), rest)
          | _ => none
      | _ => none

/-- The exact text a successful `matchPH` consumed (`match.group(0)`). -/
def phText (ds key : List Char) : List Char :=
  phOpen ++ ds ++ '_' :: (key ++ ['\x7d'])

/-- Numeric value of the digit group, Python `int(match.group(1))`. -/
def natOfDigits (ds : List Char) : Nat :=
  ds.foldl (fun a c => a * 10 + (c.toNat - 48)) 0

/-- The result-chain lookup key `f"step_{int(ds)}_{key}"`; note the
digit group is normalised through `int`, so `step_01_x` looks up
`step_1_x`. -/
def stepKeyOf (ds key : List Char) : List Char :=
  "step_".data ++ (toString (natOfDigits ds)).data ++ '_' :: key

/-- The result-chain store.  In the source these entries live in the
same `workflow_results` dictionary as the bookkeeping keys
(`executed_steps`, `step_results`, `final_status`, ...); the store is
separated here, which is sound because every key read or written by
the substitution machinery has the shape `step_` + nonempty digit run
+ `_` + key and therefore never collides with a bookkeeping key. -/
def Chain : Type := List (List Char × Val)

instance : Inhabited Chain := ⟨([] : List (List Char × Val))⟩

/-- One firing of `replace_placeholder` (server.py lines 561-574) plus
the treatment `re.sub` applies to its return value.  `orig` is the
whole string being substituted (the closure variable `obj`).  When the
placeholder key is recorded and the stripped original equals the match
text, the source returns the raw value to `re.sub`, which accepts it
only when it is a string (otherwise `re.sub` raises `TypeError`,
modelled by `none`); in the other recorded case `str(value)` is
spliced; an unrecorded key leaves the match text in place and logs one
warning (warnings are collected as the list of unresolved keys). -/
def reSubRepl (ws : Chain) (orig : List Char) (ds key : List Char) :
    Option (List Char) × List (List Char) :=
  match alookup (stepKeyOf ds key) ws with
  | some v =>
      if pyStrip orig = phText ds key then
        match v with
        | .str s => (some s, [])
        | _ => (none, [])
      else (some (pyStr v), [])
  | none => (some (phText ds key), [stepKeyOf ds key])

/-- `re.sub(pattern, replace_placeholder, obj)`: scan left to right,
never overlapping, firing `reSubRepl` at each match.  Structured with
explicit fuel (one unit per character) to make the recursion
structural; `fuel ≥ cs.length` makes it total on `cs` because every
step consumes at least one character.  Returns the rewritten string
and the unresolved-placeholder warnings in firing order, or `none`
when `re.sub` raises `TypeError`. -/
def reSubF (ws : Chain) (orig : List Char) :
    Nat → List Char → Option (List Char × List (List Char))
  | _, [] => some ([], [])
  | 0, _ :: _ => none
  | fuel + 1, c :: cs =>
    match matchPH (c :: cs) with
    | some (ds, key, rest) =>
        match reSubRepl ws orig ds key with
        | (some out, warns) =>
            match reSubF ws orig fuel rest with
            | some (tail, tailWarns) => some (out ++ tail, warns ++ tailWarns)
            | none => none
        | (none, _) => none
    | none =>
        match reSubF ws orig fuel cs with
        | some (tail, tailWarns) => some (c :: tail, tailWarns)
        | none => none

/-- `re.sub` over a whole string. -/
def reSub (ws : Chain) (cs : List Char) : Option (List Char × List (List Char)) :=
  reSubF ws cs cs.length cs

/-- `substitute_placeholders` on one string (server.py lines 556-586):
first `re.fullmatch(pattern, obj.strip())` — the whole stripped string
being exactly one placeholder with a recorded key returns the recorded
value verbatim, preserving its type — otherwise `re.sub` over the
original string.  `re.fullmatch` coincides with `matchPH` leaving no
trailing characters, because the pattern admits a unique parse at a
given position. -/
def substituteStr (ws : Chain) (s : List Char) : Option (Val × List (List Char)) :=
  match matchPH (pyStrip s) with
  | some (ds, key, []) =>
      match alookup (stepKeyOf ds key) ws with
      | some v => some (v, [])
      | none => (reSub ws s).map (fun p => (.str p.1, p.2))
  | _ => (reSub ws s).map (fun p => (.str p.1, p.2))

mutual

/-- `substitute_placeholders` (server.py lines 554-592): strings go
through the pattern machinery, dicts and lists are rebuilt with every
value substituted recursively, all other values pass through. -/
def substituteVal (ws : Chain) : Val → Option (Val × List (List Char))
  | .str s => substituteStr ws s
  | .dict kvs =>
      match substituteKVs ws kvs with
      | some (kvs', warns) => some (.dict kvs', warns)
      | none => none
  | .list xs =>
      match substituteList ws xs with
      | some (xs', warns) => some (.list xs', warns)
      | none => none
  | .int n => some (.int n, [])
  | .bool b => some (.bool b, [])
  | .null => some (.null, [])

/-- Substitution over the values of a dict body, keys untouched. -/
def substituteKVs (ws : Chain) :
    List (List Char × Val) → Option (List (List Char × Val) × List (List Char))
  | [] => some ([], [])
  | (k, v) :: rest =>
      match substituteVal ws v with
      | some (v', w1) =>
          match substituteKVs ws rest with
          | some (rest', w2) => some ((k, v') :: rest', w1 ++ w2)
          | none => none
      | none => none

/-- Substitution over the elements of a list. -/
def substituteList (ws : Chain) :
    List Val → Option (List Val × List (List Char))
  | [] => some ([], [])
  | x :: rest =>
      match substituteVal ws x with
      | some (x', w1) =>
          match substituteList ws rest with
          | some (rest', w2) => some (x' :: rest', w1 ++ w2)
          | none => none
      | none => none

end

/-! ### The workflow executor, `plan_and_execute_workflow_tool`
(server.py lines 485-658). -/

/-- A single quote as a string, for error texts such as
`Tool 'x' not available`. -/
def sqs : String := String.singleton sqc

/-- One planned step: `{"tool": ..., "params": ..., "description": ...}`. -/
structure Step where
  tool : String
  params : Val
  description : String

/-- The `step_info` record built per step (lines 543-548 and the
outcome branches).  `status` is `"completed"` or `"error"` once the
step has been processed; `error` and `result` hold the keys of the
same names (`result` is set in every outcome branch). -/
structure StepInfo where
  step_number : Nat
  tool : String
  description : String
  status : String
  error : Option String
  result : Val

/-- The tool dispatch table `available_tools` (lines 509-539), as an
abstract name-to-callable mapping: the implementations all proxy to
the external Revit listener and are out of scope.  A callable receives
its keyword-argument dict and either returns a result value or raises
(`Except.error` carries `str(exception)`). -/
structure ToolEnv where
  tools : String → Option (Val → Except String Val)

/-- `get_revit_project_info` and `list_stored_elements` are invoked
with no arguments (lines 608-610); every other tool receives the
substituted parameters as keyword arguments (line 613). -/
def toolCallArg (tool : String) (params : Val) : Val :=
  if tool = "get_revit_project_info" ∨ tool = "list_stored_elements" then
    Val.dict []
  else params

/-- The `{"error": msg}` object stored as a failing step's result. -/
def errDict (e : String) : Val :=
  Val.dict [("error".data, .str e.data)]

/-- Record one conventional key of a successful result into the
result-chain store (one of the three `if key in result:
workflow_results[f"step_{i}_{key}"] = result[key]` statements, lines
620-625).  `pyIn`/`pyGetItem` may raise (for example when the result
is a string that merely contains the key text); the raised message is
returned and already-recorded entries are kept, as in the source where
the shared `try` aborts mid-statement. -/
def chainRecord1 (i : Nat) (k : String) (res : Val) (ch : Chain) :
    Chain × Option String :=
  match pyIn k.data res with
  | .error e => (ch, some (String.mk e))
  | .ok false => (ch, none)
  | .ok true =>
      match pyGetItem res k.data with
      | .error e => (ch, some (String.mk e))
      | .ok v => ((("step_" ++ toString i ++ "_" ++ k).data, v) :: ch, none)

/-- Lines 618-625: record `element_ids`, `count` and `elements` in that
order, stopping at the first raised exception. -/
def chainRecord (i : Nat) (res : Val) (ch : Chain) : Chain × Option String :=
  match chainRecord1 i "element_ids" res ch with
  | (ch1, some e) => (ch1, some e)
  | (ch1, none) =>
      match chainRecord1 i "count" res ch1 with
      | (ch2, some e) => (ch2, some e)
      | (ch2, none) => chainRecord1 i "elements" res ch2

/-- The message of the `TypeError` Python's `re.sub` raises when the
replacement function returns a non-string; the only exception the
substitution machinery itself can produce, caught by the outer `try`
of the executor (line 653). -/
def pyTypeErrorMsg : String := "TypeError: expected str instance"

/-- The state accumulated by the step loop: outcome records
(`executed_steps`), raw results (`step_results`), the result-chain
store, and the executor-level fault caught by the outer `try`, if
any. -/
structure RunState where
  infos : List StepInfo
  results : List Val
  chain : Chain
  fatal : Option String

/-- The body of one loop iteration after placeholder substitution has
succeeded (lines 543-548 and 600-631): look up the tool (absent
records an `error` outcome: `Unknown tool`), call it (a raise records
an `error` outcome with the exception's message), and on a successful
call record the conventional chain keys, where a raise downgrades the
already-set `completed` outcome to `error` while keeping the chain
entries recorded before the raise.  Returns the step's outcome record
and the updated chain store. -/
def stepResultOf (env : ToolEnv) (i : Nat) (ch : Chain) (step : Step)
    (params' : Val) : StepInfo × Chain :=
  let base : StepInfo := ⟨i, step.tool, step.description, "pending", none, Val.null⟩
  match env.tools step.tool with
  | none =>
      ({ base with
          status := "error",
          error := some ("Unknown tool: " ++ step.tool),
          result := errDict ("Tool " ++ sqs ++ step.tool ++ sqs ++ " not available") }, ch)
  | some f =>
      match f (toolCallArg step.tool params') with
      | .error e =>
          ({ base with status := "error", error := some e, result := errDict e }, ch)
      | .ok res =>
          match chainRecord i res ch with
          | (ch', none) =>
              ({ base with status := "completed", result := res }, ch')
          | (ch', some e) =>
              ({ base with status := "error", error := some e, result := errDict e }, ch')

/-- The `for i, step in enumerate(execution_plan, 1)` loop (lines
542-634).  Per step: substitute placeholders in a copy of the params —
a failure here escapes to the outer `try` and aborts the remaining
plan — then run the iteration body.  Exactly one `StepInfo` is
appended to `executed_steps` and its `result` to `step_results` for
every step processed. -/
def runSteps (env : ToolEnv) : Nat → Chain → List Step → RunState
  | _, ch, [] => ⟨[], [], ch, none⟩
  | i, ch, step :: rest =>
    match substituteVal ch step.params with
    | none => ⟨[], [], ch, some pyTypeErrorMsg⟩
    | some (params', _warns) =>
      let p := stepResultOf env i ch step params'
      let r := runSteps env (i + 1) p.2 rest
      ⟨p.1 :: r.infos, p.1.result :: r.results, r.chain, r.fatal⟩

/-- The `workflow_results` report returned to the caller, with the
chain entries kept separately (see `Chain`). -/
structure WorkflowReport where
  user_request : String
  planned_steps : Nat
  executed_steps : List StepInfo
  step_results : List Val
  final_status : String
  summary : String
  error : Option String

/-- Number of recorded outcomes with the given status (the two `len([s
for s in ... if s["status"] == ...])` counts of lines 637-638). -/
def countStatus (s : String) (sis : List StepInfo) : Nat :=
  (sis.filter (fun si => si.status == s)).length

/-- `plan_and_execute_workflow_tool`: run every step, then aggregate
(lines 636-651): zero errors → `success`; otherwise at least one
success → `partial`; otherwise `failed`.  An exception escaping the
step machinery itself lands in the outer `except` (lines 653-658):
`final_status = "error"` with whatever steps were already recorded. -/
def planAndExecuteWorkflow (env : ToolEnv) (user_request : String)
    (plan : List Step) : WorkflowReport :=
  let r := runSteps env 1 [] plan
  match r.fatal with
  | some e =>
      ⟨user_request, plan.length, r.infos, r.results, "error",
        "Workflow execution failed: " ++ e, some e⟩
  | none =>
      let successful := countStatus "completed" r.infos
      let failed := countStatus "error" r.infos
      if failed = 0 then
        ⟨user_request, plan.length, r.infos, r.results, "success",
          "Successfully completed all " ++ toString successful ++ " planned steps", none⟩
      else if 0 < successful then
        ⟨user_request, plan.length, r.infos, r.results, "partial",
          "Completed " ++ toString successful ++ " steps, " ++ toString failed ++
            " steps failed", none⟩
      else
        ⟨user_request, plan.length, r.infos, r.results, "failed",
          "All " ++ toString failed ++ " steps failed", none⟩

/-! ### The Execution Bridge, `external_event_handler.py`.

`trigger_event`, `GeneralPurposeEventHandler.Execute`,
`get_event_status` and `_cleanup_old_results` share one handler
instance whose `lock` is held for the whole of each of these bodies;
each body is therefore modelled as one atomic state transition.
`uuid.uuid4()` produces fresh request ids, modelled by a counter;
`time.time()` values arrive as explicit parameters. -/

/-- A queued request (lines 97-102). -/
structure Request where
  id : Nat
  operation : String
  params : Val
  timestamp : Nat

/-- An entry of `handler.results`: `{'status': 'processing'}`,
`{'status': 'completed', 'result': r}`, `{'status': 'failed',
'message': m}`, or the `{'status': 'not_found'}` default returned by
`get_event_status` for an unknown id. -/
inductive EventResult where
  | processing
  | completed (result : Val)
  | failed (message : String)
  | notFound

/-- The handler's mutable state: the pending queue, the result store,
the id supply, plus a history variable `trace` recording the ids in
the order their operations were dispatched on the host thread. -/
structure HState where
  queue : List Request
  results : List (Nat × EventResult)
  nextId : Nat
  trace : List Nat

/-- The freshly initialised handler (lines 21-25). -/
def initHState : HState := ⟨[], [], 0, []⟩

/-- The Revit-side environment: `place_view_on_new_sheet(doc,
view_name, logger, exact_match)` from `sheet_placement_tool.py`, an
opaque domain operation over the active document, taking the
`view_name` and `exact_match` values and returning a result or
raising. -/
structure HEnv where
  placeView : Val → Val → Except String Val

/-- Python `params.get(k)`: `None` when the key is missing; a non-dict
`params` object raises `AttributeError`. -/
def valGet (params : Val) (k : String) : Except String Val :=
  match params with
  | .dict kvs => .ok ((alookup k.data kvs).getD Val.null)
  | _ => .error "AttributeError: object has no attribute get"

/-- Python `params.get(k, d)` with an explicit default. -/
def valGetD (params : Val) (k : String) (d : Val) : Except String Val :=
  match params with
  | .dict kvs => .ok ((alookup k.data kvs).getD d)
  | _ => .error "AttributeError: object has no attribute get"

/-- `dispatch_operation` (lines 53-64): `place_view_on_sheet` extracts
`view_name` and `exact_match` (defaulting to `False`) and calls the
sheet placement tool; every other operation name raises
`NotImplementedError("Operation '{}' is not implemented.")`. -/
def dispatchOperation (env : HEnv) (operation : String) (params : Val) :
    Except String Val :=
  if operation = "place_view_on_sheet" then do
    let vn ← valGet params "view_name"
    let em ← valGetD params "exact_match" (Val.bool false)
    env.placeView vn em
  else
    .error ("Operation " ++ sqs ++ operation ++ sqs ++ " is not implemented.")

/-- The terminal result the drain loop stores for one request (lines
45-51): `completed` with the operation's return value, or `failed`
with `str(exception)` when it raises. -/
def outcomeOf (env : HEnv) (operation : String) (params : Val) : EventResult :=
  match dispatchOperation env operation params with
  | .ok v => .completed v
  | .error e => .failed e

/-- Store assignment `handler.results[id] = r` (first match wins on
lookup, see `alookup`). -/
def setResult (m : List (Nat × EventResult)) (k : Nat) (r : EventResult) :
    List (Nat × EventResult) :=
  (k, r) :: m

/-- One iteration of the drain loop's `while` body: store the popped
request's terminal result and record its id in the dispatch trace. -/
def drainF (env : HEnv) (acc : List (Nat × EventResult) × List Nat)
    (r : Request) : List (Nat × EventResult) × List Nat :=
  (setResult acc.1 r.id (outcomeOf env r.operation r.params), acc.2 ++ [r.id])

/-- The drain loop over a queue, threading the result store and the
dispatch trace. -/
def drainAcc (env : HEnv) (q : List Request)
    (acc : List (Nat × EventResult) × List Nat) :
    List (Nat × EventResult) × List Nat :=
  q.foldl (drainF env) acc

/-- `GeneralPurposeEventHandler.Execute` (lines 27-51): under the lock,
pop the oldest request and execute it until the queue is empty,
converting a raise into a `failed` result instead of propagating.  The
document handle read each iteration is part of `env`.  Ids are
appended to `trace` in dispatch order. -/
def executeDrain (env : HEnv) (st : HState) : HState :=
  let acc := drainAcc env st.queue (st.results, st.trace)
  ⟨[], acc.1, st.nextId, acc.2⟩

/-- The `{'status': 'processing', 'event_id': id}` dict returned by a
successful `trigger_event`.  The handler-not-initialised early return
(lines 93-94) is dead in the modelled configuration, where module load
has created the singleton. -/
structure TriggerResponse where
  status : String
  event_id : Nat

/-- `trigger_event` (lines 88-110): allocate a fresh id, and — under
one lock acquisition — append the request to the queue and seed its
result as `processing`; raising the external event is the host-thread
signal, not modelled as a state change.  No validation of `operation`
is performed. -/
def triggerEvent (st : HState) (operation : String) (params : Val)
    (now : Nat) : TriggerResponse × HState :=
  let event_id := st.nextId
  let request : Request := ⟨event_id, operation, params, now⟩
  (⟨"processing", event_id⟩,
    ⟨st.queue ++ [request], setResult st.results event_id .processing,
      st.nextId + 1, st.trace⟩)

/-- The filter condition of `_cleanup_old_results` (line 138): keep a
result when its status is `processing`, or when the queue is nonempty
and the front request is younger than `max_age_seconds`. -/
def cleanupKeep (st : HState) (now maxAge : Nat) (p : Nat × EventResult) : Bool :=
  (match p.2 with | .processing => true | _ => false) ||
    (match st.queue with
     | [] => false
     | q0 :: _ => now - q0.timestamp < maxAge)

/-- `_cleanup_old_results` (lines 126-142): the comprehension builds
`fresh_results`, but the source never assigns it back to
`handler.results` (the function body ends in `pass`), so the state is
returned unchanged. -/
def cleanupOldResults (st : HState) (now maxAge : Nat) : HState :=
  let _fresh_results := st.results.filter (cleanupKeep st now maxAge)
  st

/-- `get_event_status` (lines 112-124): run the cleanup sweep, then
return the stored result, defaulting to `{'status': 'not_found'}`. -/
def getEventStatus (st : HState) (event_id : Nat) (now : Nat) :
    EventResult × HState :=
  let st1 := cleanupOldResults st now 600
  ((alookup event_id st1.results).getD .notFound, st1)

/-- The two state-changing entry points, as observable actions: an
external caller submitting a request, and Revit raising the external
event on the host thread (which drains the whole queue under the
lock). -/
inductive HAct where
  | trigger (operation : String) (params : Val) (now : Nat)
  | drain

/-- One action's effect on the handler state. -/
def hstep (env : HEnv) (st : HState) : HAct → HState
  | .trigger op p t => (triggerEvent st op p t).2
  | .drain => executeDrain env st

/-- Run a sequence of actions. -/
def hrun (env : HEnv) (st : HState) (acts : List HAct) : HState :=
  acts.foldl (hstep env) st

/-- Well-formedness maintained by the handler: queued ids and stored
ids are below the id supply, and queued ids are distinct (uuid4
freshness). -/
def WFH (st : HState) : Prop :=
  (∀ r ∈ st.queue, r.id < st.nextId) ∧
  (st.queue.map (fun r => r.id)).Nodup ∧
  (∀ p ∈ st.results, p.1 < st.nextId)

/-! ### Concrete fixtures used to instantiate the theorems below. -/

/-- A Revit environment whose sheet placement always succeeds. -/
def demoHEnv : HEnv := ⟨fun _ _ => .ok Val.null⟩

/-- A Revit environment whose sheet placement raises. -/
def demoHEnvFail : HEnv := ⟨fun _ _ => .error "view not found"⟩

/-- A dispatch table with a succeeding tool `good` (whose result
carries a `count` chain key), a raising tool `bad`, and nothing
else. -/
def demoToolEnv : ToolEnv :=
  ⟨fun n =>
    if n = "good" then some (fun _ => .ok (Val.dict [("count".data, .int 7)]))
    else if n = "bad" then some (fun _ => .error "kaboom")
    else none⟩

/-- A dispatch table whose only tool returns, without raising, a value
of the uniform failure shape `{"status": "error", "message": ...}`. -/
def errShapeToolEnv : ToolEnv :=
  ⟨fun n =>
    if n = "t" then
      some (fun _ => .ok (Val.dict
        [("status".data, .str "error".data), ("message".data, .str "boom".data)]))
    else none⟩

/-- A one-entry result chain binding `step_1_element_ids` to the list
`["1", "2", "3"]` (the spec's round-trip example). -/
def demoChain : Chain :=
  [(stepKeyOf ['1'] "element_ids".data,
    Val.list [.str "1".data, .str "2".data, .str "3".data])]

/-- A handler state with two pending requests (ids 0 and 1, operations
nobody implements) and their seeded `processing` results. -/
def twoReqState : HState :=
  ⟨[⟨0, "alpha", Val.null, 0⟩, ⟨1, "beta", Val.null, 1⟩],
    [(1, .processing), (0, .processing)], 2, []⟩

/-! ## Supporting lemmas: the result store and the drain loop -/

theorem alookup_cons_self {α β : Type} [DecidableEq α] (k : α) (v : β)
    (rest : List (α × β)) : alookup k ((k, v) :: rest) = some v := by
  simp [alookup]

theorem alookup_cons_ne {α β : Type} [DecidableEq α] {k k' : α} (v : β)
    (rest : List (α × β)) (h : k' ≠ k) :
    alookup k ((k', v) :: rest) = alookup k rest := by
  simp [alookup, h]

theorem drainAcc_cons (env : HEnv) (r : Request) (q : List Request)
    (acc : List (Nat × EventResult) × List Nat) :
    drainAcc env (r :: q) acc = drainAcc env q (drainF env acc r) := rfl

theorem drainAcc_trace (env : HEnv) (q : List Request) :
    ∀ acc, (drainAcc env q acc).2 = acc.2 ++ q.map (fun r => r.id) := by
  induction q with
  | nil => intro acc; simp [drainAcc]
  | cons r q ih =>
      intro acc
      rw [drainAcc_cons, ih]
      simp [drainF]

theorem drainAcc_lookup_not_mem (env : HEnv) (q : List Request) (id : Nat)
    (h : id ∉ q.map (fun r => r.id)) :
    ∀ acc, alookup id (drainAcc env q acc).1 = alookup id acc.1 := by
  induction q with
  | nil => intro acc; rfl
  | cons r q ih =>
      intro acc
      simp only [List.map_cons, List.mem_cons, not_or] at h
      rw [drainAcc_cons, ih h.2]
      exact alookup_cons_ne _ _ (fun he => h.1 he.symm)

theorem drainAcc_lookup_mem (env : HEnv) (q : List Request)
    (hnodup : (q.map (fun r => r.id)).Nodup) (r : Request) (hr : r ∈ q) :
    ∀ acc, alookup r.id (drainAcc env q acc).1
      = some (outcomeOf env r.operation r.params) := by
  induction q with
  | nil => cases hr
  | cons x q ih =>
      intro acc
      simp only [List.map_cons, List.nodup_cons] at hnodup
      rcases List.mem_cons.mp hr with h | h
      · subst h
        rw [drainAcc_cons,
          drainAcc_lookup_not_mem env q r.id hnodup.1]
        exact alookup_cons_self _ _ _
      · exact ih hnodup.2 h _

theorem executeDrain_queue (env : HEnv) (st : HState) :
    (executeDrain env st).queue = [] := rfl

theorem executeDrain_nextId (env : HEnv) (st : HState) :
    (executeDrain env st).nextId = st.nextId := rfl

theorem executeDrain_trace (env : HEnv) (st : HState) :
    (executeDrain env st).trace = st.trace ++ st.queue.map (fun r => r.id) :=
  drainAcc_trace env st.queue (st.results, st.trace)

theorem executeDrain_lookup_mem (env : HEnv) (st : HState)
    (hnodup : (st.queue.map (fun r => r.id)).Nodup) (r : Request)
    (hr : r ∈ st.queue) :
    alookup r.id (executeDrain env st).results
      = some (outcomeOf env r.operation r.params) :=
  drainAcc_lookup_mem env st.queue hnodup r hr (st.results, st.trace)

theorem executeDrain_lookup_not_mem (env : HEnv) (st : HState) (id : Nat)
    (h : id ∉ st.queue.map (fun r => r.id)) :
    alookup id (executeDrain env st).results = alookup id st.results :=
  drainAcc_lookup_not_mem env st.queue id h (st.results, st.trace)

theorem drainAcc_mem_keys (env : HEnv) (q : List Request) :
    ∀ acc p, p ∈ (drainAcc env q acc).1 →
      p ∈ acc.1 ∨ p.1 ∈ q.map (fun r => r.id) := by
  induction q with
  | nil => intro acc p h; exact Or.inl h
  | cons x q ih =>
      intro acc p h
      rw [drainAcc_cons] at h
      rcases ih _ p h with h' | h'
      · rcases List.mem_cons.mp h' with h'' | h''
        · subst h''; simp
        · exact Or.inl h''
      · simp [h']

theorem WFH_trigger (st : HState) (op : String) (params : Val) (t : Nat)
    (h : WFH st) : WFH ((triggerEvent st op params t).2) := by
  obtain ⟨h1, h2, h3⟩ := h
  refine ⟨?_, ?_, ?_⟩
  · intro r hr
    rcases List.mem_append.mp hr with h' | h'
    · exact Nat.lt_succ_of_lt (h1 r h')
    · simp only [List.mem_singleton] at h'
      subst h'
      exact Nat.lt_succ_self _
  · simp only [triggerEvent, List.map_append, List.map_cons, List.map_nil]
    refine List.Nodup.append h2 (List.nodup_singleton _) ?_
    intro a ha hb
    simp only [List.mem_singleton] at hb
    subst hb
    rcases List.mem_map.mp ha with ⟨r, hr, hid⟩
    exact absurd hid (Nat.ne_of_lt (h1 r hr))
  · intro p hp
    rcases List.mem_cons.mp hp with h' | h'
    · subst h'; exact Nat.lt_succ_self _
    · exact Nat.lt_succ_of_lt (h3 p h')

theorem WFH_drain (env : HEnv) (st : HState) (h : WFH st) :
    WFH (executeDrain env st) := by
  obtain ⟨h1, _, h3⟩ := h
  refine ⟨by simp [executeDrain_queue], by simp [executeDrain_queue], ?_⟩
  intro p hp
  rw [executeDrain_nextId]
  rcases drainAcc_mem_keys env st.queue (st.results, st.trace) p hp with h' | h'
  · exact h3 p h'
  · rcases List.mem_map.mp h' with ⟨r, hr, hid⟩
    exact hid ▸ h1 r hr

theorem WFH_hstep (env : HEnv) (st : HState) (a : HAct) (h : WFH st) :
    WFH (hstep env st a) := by
  cases a with
  | trigger op p t => exact WFH_trigger st op p t h
  | drain => exact WFH_drain env st h

theorem WFH_hrun (env : HEnv) (acts : List HAct) :
    ∀ st, WFH st → WFH (hrun env st acts) := by
  induction acts with
  | nil => intro st h; exact h
  | cons a acts ih => intro st h; exact ih _ (WFH_hstep env st a h)

/-- Once an id is allocated and no longer queued, no later action
touches its stored result: triggers write only fresh ids, drains write
only queued ids. -/
theorem hstep_lookup_frozen (env : HEnv) (st : HState) (a : HAct) (id : Nat)
    (hid : id < st.nextId) (hq : id ∉ st.queue.map (fun r => r.id)) :
    alookup id (hstep env st a).results = alookup id st.results ∧
    id < (hstep env st a).nextId ∧
    id ∉ (hstep env st a).queue.map (fun r => r.id) := by
  cases a with
  | trigger op p t =>
      refine ⟨alookup_cons_ne _ _ (Nat.ne_of_gt hid), Nat.lt_succ_of_lt hid, ?_⟩
      simp only [hstep, triggerEvent, List.map_append, List.map_cons,
        List.map_nil, List.mem_append, List.mem_singleton]
      rintro (h | h)
      · exact hq h
      · exact absurd h (Nat.ne_of_lt hid)
  | drain =>
      refine ⟨executeDrain_lookup_not_mem env st id hq, ?_, ?_⟩
      · show id < (executeDrain env st).nextId
        rw [executeDrain_nextId]; exact hid
      · show id ∉ (executeDrain env st).queue.map (fun r => r.id)
        rw [executeDrain_queue]; simp

theorem hrun_lookup_frozen (env : HEnv) (acts : List HAct) :
    ∀ st id, id < st.nextId → id ∉ st.queue.map (fun r => r.id) →
      alookup id (hrun env st acts).results = alookup id st.results := by
  induction acts with
  | nil => intro st id _ _; rfl
  | cons a acts ih =>
      intro st id hid hq
      obtain ⟨he, hid', hq'⟩ := hstep_lookup_frozen env st a id hid hq
      calc alookup id (hrun env (hstep env st a) acts).results
          = alookup id (hstep env st a).results := ih _ id hid' hq'
        _ = alookup id st.results := he

/-- A drain-free run only appends to the queue, only grows the id
supply, and leaves every already-allocated id's result untouched. -/
theorem hrun_nodrain (env : HEnv) (acts : List HAct)
    (h : HAct.drain ∉ acts) :
    ∀ st, (∃ ext, (hrun env st acts).queue = st.queue ++ ext) ∧
      st.nextId ≤ (hrun env st acts).nextId ∧
      (∀ id, id < st.nextId →
        alookup id (hrun env st acts).results = alookup id st.results) := by
  induction acts with
  | nil => intro st; exact ⟨⟨[], by simp [hrun]⟩, Nat.le_refl _, fun _ _ => rfl⟩
  | cons a acts ih =>
      intro st
      simp only [List.mem_cons, not_or] at h
      cases a with
      | drain => exact absurd rfl h.1
      | trigger op p t =>
          obtain ⟨⟨ext, hq⟩, hn, hf⟩ := ih h.2 ((triggerEvent st op p t).2)
          refine ⟨⟨⟨st.nextId, op, p, t⟩ :: ext, ?_⟩, ?_, ?_⟩
          · show (hrun env ((triggerEvent st op p t).2) acts).queue = _
            rw [hq]
            simp [triggerEvent]
          · exact Nat.le_trans (Nat.le_succ _) hn
          · intro id hid
            show alookup id (hrun env ((triggerEvent st op p t).2) acts).results = _
            rw [hf id (Nat.lt_succ_of_lt hid)]
            exact alookup_cons_ne _ _ (Nat.ne_of_gt hid)

/-- `get_event_status` returns the stored (or `not_found`) result and
leaves the state unchanged: the cleanup sweep it runs is the identity
(`_cleanup_old_results` never stores what it computes). -/
theorem getEventStatus_eq (st : HState) (id now : Nat) :
    getEventStatus st id now
      = ((alookup id st.results).getD EventResult.notFound, st) := rfl

/-! ## Claims about the Execution Bridge -/

/-- C1: requests drain in FIFO submission order: when the host thread
drains, the dispatch trace extends by exactly the queued ids in queue
order, so a request enqueued at position `i` executes strictly before
one enqueued at a later position `j`. -/
theorem c1_fifo_execution (env : HEnv) (st : HState)
    (hnodup : (st.queue.map (fun r => r.id)).Nodup) (i j : Nat) (hij : i < j)
    (hj : j < st.queue.length) :
    ((executeDrain env st).trace.drop st.trace.length)[i]?
        = some ((st.queue.get ⟨i, Nat.lt_trans hij hj⟩).id) ∧
    ((executeDrain env st).trace.drop st.trace.length)[j]?
        = some ((st.queue.get ⟨j, hj⟩).id) ∧
    List.indexOf ((st.queue.get ⟨i, Nat.lt_trans hij hj⟩).id)
        ((executeDrain env st).trace.drop st.trace.length)
      < List.indexOf ((st.queue.get ⟨j, hj⟩).id)
        ((executeDrain env st).trace.drop st.trace.length) := by
  have hi : i < st.queue.length := Nat.lt_trans hij hj
  have htr : (executeDrain env st).trace.drop st.trace.length
      = st.queue.map (fun r => r.id) := by
    rw [executeDrain_trace]
    exact List.drop_left _ _
  have hi' : i < (st.queue.map (fun r => r.id)).length := by
    rw [List.length_map]; exact hi
  have hj' : j < (st.queue.map (fun r => r.id)).length := by
    rw [List.length_map]; exact hj
  have ei : (st.queue.map (fun r => r.id))[i] = (st.queue.get ⟨i, hi⟩).id := by
    simp
  have ej : (st.queue.map (fun r => r.id))[j] = (st.queue.get ⟨j, hj⟩).id := by
    simp
  refine ⟨?_, ?_, ?_⟩
  · rw [htr, List.getElem?_eq_getElem hi', ei]
  · rw [htr, List.getElem?_eq_getElem hj', ej]
  · rw [htr, ← ei, ← ej, List.indexOf_getElem hnodup i hi',
      List.indexOf_getElem hnodup j hj']
    exact hij

theorem c1_fifo_execution_witness :
    ((executeDrain demoHEnv twoReqState).trace.drop twoReqState.trace.length)[0]?
        = some ((twoReqState.queue.get ⟨0, by decide⟩).id) ∧
    ((executeDrain demoHEnv twoReqState).trace.drop twoReqState.trace.length)[1]?
        = some ((twoReqState.queue.get ⟨1, by decide⟩).id) ∧
    List.indexOf ((twoReqState.queue.get ⟨0, by decide⟩).id)
        ((executeDrain demoHEnv twoReqState).trace.drop twoReqState.trace.length)
      < List.indexOf ((twoReqState.queue.get ⟨1, by decide⟩).id)
        ((executeDrain demoHEnv twoReqState).trace.drop twoReqState.trace.length) :=
  c1_fifo_execution demoHEnv twoReqState (by decide) 0 1 (by decide) (by decide)

/-- C2: a submitted request's result is seeded as `processing` in the
same atomic step as the enqueue, stays `processing` under any
drain-free continuation (with `status` reads returning it and leaving
the state unchanged), becomes exactly one terminal result — the
operation's `completed` value xor a `failed` message — once a drain
runs, and that terminal result is returned unchanged by every
subsequent status query under any continuation. -/
theorem c2_result_lifecycle (env : HEnv) (st : HState) (hWF : WFH st)
    (op : String) (params : Val) (t : Nat) :
    (triggerEvent st op params t).1 = ⟨"processing", st.nextId⟩ ∧
    alookup st.nextId ((triggerEvent st op params t).2).results
      = some .processing ∧
    (∀ acts, HAct.drain ∉ acts → ∀ now,
      getEventStatus (hrun env ((triggerEvent st op params t).2) acts)
          st.nextId now
        = (.processing, hrun env ((triggerEvent st op params t).2) acts)) ∧
    (∀ acts, HAct.drain ∉ acts →
      alookup st.nextId
          (executeDrain env
            (hrun env ((triggerEvent st op params t).2) acts)).results
        = some (outcomeOf env op params) ∧
      ((∃ v, outcomeOf env op params = .completed v) ∨
        (∃ m, outcomeOf env op params = .failed m)) ∧
      (∀ acts2 now,
        getEventStatus
            (hrun env
              (executeDrain env
                (hrun env ((triggerEvent st op params t).2) acts)) acts2)
            st.nextId now
          = (outcomeOf env op params,
              hrun env
                (executeDrain env
                  (hrun env ((triggerEvent st op params t).2) acts)) acts2))) := by
  have hseed : alookup st.nextId ((triggerEvent st op params t).2).results
      = some .processing := alookup_cons_self _ _ _
  refine ⟨rfl, hseed, ?_, ?_⟩
  · intro acts hacts now
    have hfrozen := (hrun_nodrain env acts hacts ((triggerEvent st op params t).2)).2.2
      st.nextId (Nat.lt_succ_self _)
    rw [getEventStatus_eq, hfrozen, hseed]
    rfl
  · intro acts hacts
    have hWF1 : WFH ((triggerEvent st op params t).2) := WFH_trigger st op params t hWF
    have hWF2 : WFH (hrun env ((triggerEvent st op params t).2) acts) :=
      WFH_hrun env acts _ hWF1
    obtain ⟨ext, hq⟩ := (hrun_nodrain env acts hacts ((triggerEvent st op params t).2)).1
    have hmem : (⟨st.nextId, op, params, t⟩ : Request)
        ∈ (hrun env ((triggerEvent st op params t).2) acts).queue := by
      rw [hq]
      exact List.mem_append_left _
        (List.mem_append_right _ (List.mem_singleton.mpr rfl))
    have hterm := executeDrain_lookup_mem env _ hWF2.2.1 _ hmem
    have hnext : st.nextId <
        (executeDrain env (hrun env ((triggerEvent st op params t).2) acts)).nextId := by
      rw [executeDrain_nextId]
      exact Nat.lt_of_lt_of_le (Nat.lt_succ_self _)
        (hrun_nodrain env acts hacts ((triggerEvent st op params t).2)).2.1
    refine ⟨hterm, ?_, ?_⟩
    · unfold outcomeOf
      cases hdis : dispatchOperation env op params with
      | ok v => exact Or.inl ⟨v, rfl⟩
      | error e => exact Or.inr ⟨e, rfl⟩
    · intro acts2 now
      have hstable := hrun_lookup_frozen env acts2
        (executeDrain env (hrun env ((triggerEvent st op params t).2) acts))
        st.nextId hnext
        (by rw [executeDrain_queue]; simp)
      rw [getEventStatus_eq, hstable, hterm]
      rfl

theorem c2_result_lifecycle_witness :
    (triggerEvent initHState "x" Val.null 0).1 = ⟨"processing", initHState.nextId⟩ ∧
    getEventStatus (hrun demoHEnv ((triggerEvent initHState "x" Val.null 0).2) [])
        initHState.nextId 5
      = (.processing, hrun demoHEnv ((triggerEvent initHState "x" Val.null 0).2) []) ∧
    alookup initHState.nextId
        (executeDrain demoHEnv
          (hrun demoHEnv ((triggerEvent initHState "x" Val.null 0).2) [])).results
      = some (outcomeOf demoHEnv "x" Val.null) := by
  have h := c2_result_lifecycle demoHEnv initHState
    ⟨fun r hr => absurd hr (List.not_mem_nil r), List.nodup_nil,
      fun p hp => absurd hp (List.not_mem_nil p)⟩ "x" Val.null 0
  exact ⟨h.1, h.2.2.1 [] (by simp) 5, (h.2.2.2 [] (by simp)).1⟩

/-- C5: an operation that raises during the drain is converted into a
`failed` result carrying the exception's message; the drain is a total
function (nothing propagates), and every queued request — including
those enqueued after the failing one — is dispatched in the same
drain, ending with a terminal (non-`processing`) result and an entry
in the dispatch trace. -/
theorem c5_exception_contained (env : HEnv) (st : HState)
    (hnodup : (st.queue.map (fun r => r.id)).Nodup) (r : Request)
    (hr : r ∈ st.queue) (e : String)
    (he : dispatchOperation env r.operation r.params = .error e) :
    alookup r.id (executeDrain env st).results = some (.failed e) ∧
    (∀ r2 ∈ st.queue,
      alookup r2.id (executeDrain env st).results
        = some (outcomeOf env r2.operation r2.params) ∧
      outcomeOf env r2.operation r2.params ≠ .processing ∧
      r2.id ∈ (executeDrain env st).trace) := by
  constructor
  · rw [executeDrain_lookup_mem env st hnodup r hr]
    simp [outcomeOf, he]
  · intro r2 hr2
    refine ⟨executeDrain_lookup_mem env st hnodup r2 hr2, ?_, ?_⟩
    · unfold outcomeOf
      cases dispatchOperation env r2.operation r2.params <;> simp
    · rw [executeDrain_trace]
      exact List.mem_append_right _ (List.mem_map.mpr ⟨r2, hr2, rfl⟩)

theorem c5_exception_contained_witness :
    alookup 0 (executeDrain demoHEnv twoReqState).results
      = some (.failed ("Operation " ++ sqs ++ "alpha" ++ sqs ++ " is not implemented.")) ∧
    (∀ r2 ∈ twoReqState.queue,
      alookup r2.id (executeDrain demoHEnv twoReqState).results
        = some (outcomeOf demoHEnv r2.operation r2.params) ∧
      outcomeOf demoHEnv r2.operation r2.params ≠ .processing ∧
      r2.id ∈ (executeDrain demoHEnv twoReqState).trace) :=
  c5_exception_contained demoHEnv twoReqState (by decide)
    ⟨0, "alpha", Val.null, 0⟩ (List.mem_cons_self _ _)
    ("Operation " ++ sqs ++ "alpha" ++ sqs ++ " is not implemented.") rfl

/-- C10: a queued request whose operation is not `place_view_on_sheet`
ends the drain with a `failed` result whose message says the operation
is not implemented; it does not remain `processing`, and the drain
(a total function) does not crash. -/
theorem c10_unknown_operation_failed (env : HEnv) (st : HState)
    (hnodup : (st.queue.map (fun r => r.id)).Nodup) (r : Request)
    (hr : r ∈ st.queue) (hop : r.operation ≠ "place_view_on_sheet") :
    alookup r.id (executeDrain env st).results
      = some (.failed
          ("Operation " ++ sqs ++ r.operation ++ sqs ++ " is not implemented.")) ∧
    (∀ res, alookup r.id (executeDrain env st).results = some res →
      res ≠ .processing) := by
  have hd : dispatchOperation env r.operation r.params
      = .error ("Operation " ++ sqs ++ r.operation ++ sqs ++ " is not implemented.") := by
    unfold dispatchOperation
    rw [if_neg hop]
  have hmain : alookup r.id (executeDrain env st).results
      = some (.failed
          ("Operation " ++ sqs ++ r.operation ++ sqs ++ " is not implemented.")) := by
    rw [executeDrain_lookup_mem env st hnodup r hr]
    simp [outcomeOf, hd]
  refine ⟨hmain, ?_⟩
  intro res hres
  rw [hmain] at hres
  cases hres
  simp

theorem c10_unknown_operation_failed_witness :
    alookup 1 (executeDrain demoHEnv twoReqState).results
      = some (.failed ("Operation " ++ sqs ++ "beta" ++ sqs ++ " is not implemented.")) ∧
    (∀ res, alookup 1 (executeDrain demoHEnv twoReqState).results = some res →
      res ≠ .processing) :=
  c10_unknown_operation_failed demoHEnv twoReqState (by decide)
    ⟨1, "beta", Val.null, 1⟩ (by simp [twoReqState]) (by decide)

/-- C8 (code bug): the status-call pruning sweep never removes
anything: `_cleanup_old_results` builds its filtered dictionary but
never stores it, so `cleanupOldResults` is the identity on the state;
concretely, a terminal result whose request was enqueued 10000 seconds
ago (far beyond the 600-second window) is still stored and still
returned by `get_event_status`. -/
theorem c8_pruning_never_removes :
    (∀ st now maxAge, cleanupOldResults st now maxAge = st) ∧
    (getEventStatus (executeDrain demoHEnv
        ((triggerEvent initHState "noop" Val.null 0).2)) 0 10000).2
      = executeDrain demoHEnv ((triggerEvent initHState "noop" Val.null 0).2) ∧
    (getEventStatus (executeDrain demoHEnv
        ((triggerEvent initHState "noop" Val.null 0).2)) 0 10000).1
      = .failed ("Operation " ++ sqs ++ "noop" ++ sqs ++ " is not implemented.") :=
  ⟨fun _ _ _ => rfl, rfl, rfl⟩

/-- C9 (counterexample): submitting with an empty operation name is not
rejected: `trigger_event` enqueues the request and acknowledges it
with `{status: "processing", event_id}`. -/
theorem c9_no_validation_counterexample :
    (triggerEvent initHState "" Val.null 0).1 = ⟨"processing", 0⟩ ∧
    ((triggerEvent initHState "" Val.null 0).2).queue = [⟨0, "", Val.null, 0⟩] ∧
    alookup 0 ((triggerEvent initHState "" Val.null 0).2).results
      = some .processing :=
  ⟨rfl, rfl, rfl⟩

/-- C9 (amended): `trigger_event` performs no validation of the
operation name: a submission with an empty operation name is enqueued
and acknowledged as `{status: "processing", event_id}` like any other;
it only fails at drain time, when dispatch raises
`NotImplementedError` and a `failed` result is recorded. -/
theorem c9_no_validation (env : HEnv) (st : HState) (hWF : WFH st)
    (params : Val) (t : Nat) :
    (triggerEvent st "" params t).1 = ⟨"processing", st.nextId⟩ ∧
    ((triggerEvent st "" params t).2).queue
      = st.queue ++ [⟨st.nextId, "", params, t⟩] ∧
    alookup st.nextId ((triggerEvent st "" params t).2).results
      = some .processing ∧
    alookup st.nextId (executeDrain env ((triggerEvent st "" params t).2)).results
      = some (.failed ("Operation " ++ sqs ++ "" ++ sqs ++ " is not implemented.")) := by
  have hWF1 : WFH ((triggerEvent st "" params t).2) := WFH_trigger st "" params t hWF
  have hmem : (⟨st.nextId, "", params, t⟩ : Request)
      ∈ ((triggerEvent st "" params t).2).queue :=
    List.mem_append_right _ (List.mem_singleton.mpr rfl)
  refine ⟨rfl, rfl, alookup_cons_self _ _ _, ?_⟩
  rw [executeDrain_lookup_mem env _ hWF1.2.1 _ hmem]
  have hd : dispatchOperation env "" params
      = .error ("Operation " ++ sqs ++ "" ++ sqs ++ " is not implemented.") := by
    unfold dispatchOperation
    rw [if_neg (by decide)]
  simp [outcomeOf, hd]

theorem c9_no_validation_witness :
    (triggerEvent initHState "" Val.null 3).1 = ⟨"processing", initHState.nextId⟩ ∧
    ((triggerEvent initHState "" Val.null 3).2).queue
      = initHState.queue ++ [⟨initHState.nextId, "", Val.null, 3⟩] ∧
    alookup initHState.nextId ((triggerEvent initHState "" Val.null 3).2).results
      = some .processing ∧
    alookup initHState.nextId
        (executeDrain demoHEnv ((triggerEvent initHState "" Val.null 3).2)).results
      = some (.failed ("Operation " ++ sqs ++ "" ++ sqs ++ " is not implemented.")) :=
  c9_no_validation demoHEnv initHState
    ⟨fun r hr => absurd hr (List.not_mem_nil r), List.nodup_nil,
      fun p hp => absurd hp (List.not_mem_nil p)⟩ Val.null 3

/-! ## Supporting lemmas: the workflow executor's step loop -/

theorem runSteps_nil (env : ToolEnv) (i : Nat) (ch : Chain) :
    runSteps env i ch [] = ⟨[], [], ch, none⟩ := rfl

theorem runSteps_cons_fatal (env : ToolEnv) (i : Nat) (ch : Chain)
    (step : Step) (rest : List Step)
    (h : substituteVal ch step.params = none) :
    runSteps env i ch (step :: rest) = ⟨[], [], ch, some pyTypeErrorMsg⟩ := by
  simp [runSteps, h]

theorem runSteps_cons_ok (env : ToolEnv) (i : Nat) (ch : Chain)
    (step : Step) (rest : List Step) (p' : Val) (w : List (List Char))
    (h : substituteVal ch step.params = some (p', w)) :
    runSteps env i ch (step :: rest)
      = ⟨(stepResultOf env i ch step p').1
            :: (runSteps env (i + 1) (stepResultOf env i ch step p').2 rest).infos,
          (stepResultOf env i ch step p').1.result
            :: (runSteps env (i + 1) (stepResultOf env i ch step p').2 rest).results,
          (runSteps env (i + 1) (stepResultOf env i ch step p').2 rest).chain,
          (runSteps env (i + 1) (stepResultOf env i ch step p').2 rest).fatal⟩ := by
  simp [runSteps, h]

/-- Raw results are exactly the recorded outcomes' `result` fields, in
order. -/
theorem runSteps_results_map (env : ToolEnv) :
    ∀ (steps : List Step) (i : Nat) (ch : Chain),
      (runSteps env i ch steps).results
        = (runSteps env i ch steps).infos.map (fun si => si.result) := by
  intro steps
  induction steps with
  | nil => intro i ch; rfl
  | cons step rest ih =>
      intro i ch
      cases h : substituteVal ch step.params with
      | none => rw [runSteps_cons_fatal env i ch step rest h]; rfl
      | some pw =>
          obtain ⟨p', w⟩ := pw
          rw [runSteps_cons_ok env i ch step rest p' w h]
          simp [ih]

/-- A run that ends without an executor-level fault recorded one
outcome per step. -/
theorem runSteps_length (env : ToolEnv) :
    ∀ (steps : List Step) (i : Nat) (ch : Chain),
      (runSteps env i ch steps).fatal = none →
      (runSteps env i ch steps).infos.length = steps.length := by
  intro steps
  induction steps with
  | nil => intro i ch _; rfl
  | cons step rest ih =>
      intro i ch hok
      cases h : substituteVal ch step.params with
      | none => rw [runSteps_cons_fatal env i ch step rest h] at hok; cases hok
      | some pw =>
          obtain ⟨p', w⟩ := pw
          rw [runSteps_cons_ok env i ch step rest p' w h] at hok ⊢
          simp only [List.length_cons]
          rw [ih (i + 1) _ hok]

/-- A run over `s1 ++ s2` whose `s1` part does not fault is the `s1`
run followed by the `s2` run started at the continuation index and
chain. -/
theorem runSteps_append (env : ToolEnv) (s1 s2 : List Step) :
    ∀ (i : Nat) (ch : Chain), (runSteps env i ch s1).fatal = none →
      runSteps env i ch (s1 ++ s2)
        = ⟨(runSteps env i ch s1).infos
              ++ (runSteps env (i + s1.length) (runSteps env i ch s1).chain s2).infos,
            (runSteps env i ch s1).results
              ++ (runSteps env (i + s1.length) (runSteps env i ch s1).chain s2).results,
            (runSteps env (i + s1.length) (runSteps env i ch s1).chain s2).chain,
            (runSteps env (i + s1.length) (runSteps env i ch s1).chain s2).fatal⟩ := by
  induction s1 with
  | nil => intro i ch _; simp [runSteps_nil]
  | cons step rest ih =>
      intro i ch hok
      cases h : substituteVal ch step.params with
      | none => rw [runSteps_cons_fatal env i ch step rest h] at hok; cases hok
      | some pw =>
          obtain ⟨p', w⟩ := pw
          rw [runSteps_cons_ok env i ch step rest p' w h] at hok
          have harith : i + (step :: rest).length = (i + 1) + rest.length := by
            simp [List.length_cons]; omega
          rw [List.cons_append,
            runSteps_cons_ok env i ch step (rest ++ s2) p' w h,
            ih (i + 1) _ hok, harith,
            runSteps_cons_ok env i ch step rest p' w h]
          rfl

/-- A faulting prefix aborts the remaining plan: the run over
`s1 ++ s2` is the run over `s1`. -/
theorem runSteps_append_fatal (env : ToolEnv) (s1 s2 : List Step) :
    ∀ (i : Nat) (ch : Chain) (e : String),
      (runSteps env i ch s1).fatal = some e →
      runSteps env i ch (s1 ++ s2) = runSteps env i ch s1 := by
  induction s1 with
  | nil => intro i ch e h; cases h
  | cons step rest ih =>
      intro i ch e hfat
      cases h : substituteVal ch step.params with
      | none =>
          rw [List.cons_append, runSteps_cons_fatal env i ch step (rest ++ s2) h,
            runSteps_cons_fatal env i ch step rest h]
      | some pw =>
          obtain ⟨p', w⟩ := pw
          rw [runSteps_cons_ok env i ch step rest p' w h] at hfat
          rw [List.cons_append,
            runSteps_cons_ok env i ch step (rest ++ s2) p' w h,
            ih (i + 1) _ e hfat,
            runSteps_cons_ok env i ch step rest p' w h]

/-- In a fault-free run, the outcome at index `k` is exactly the body
of iteration `k + 1` evaluated on the chain accumulated by the first
`k` steps, with placeholder substitution succeeding there. -/
theorem runSteps_char (env : ToolEnv) (plan : List Step) (k : Nat) (step : Step)
    (hok : (runSteps env 1 [] plan).fatal = none) (hstep : plan[k]? = some step) :
    ∃ p' w,
      substituteVal (runSteps env 1 [] (plan.take k)).chain step.params
          = some (p', w) ∧
      (runSteps env 1 [] plan).infos[k]?
        = some (stepResultOf env (1 + k)
            (runSteps env 1 [] (plan.take k)).chain step p').1 := by
  obtain ⟨hk, hget⟩ := List.getElem?_eq_some.mp hstep
  have hpre : (runSteps env 1 [] (plan.take k)).fatal = none := by
    cases hfat : (runSteps env 1 [] (plan.take k)).fatal with
    | none => rfl
    | some e =>
        exfalso
        have := runSteps_append_fatal env (plan.take k) (plan.drop k) 1 [] e hfat
        rw [List.take_append_drop] at this
        rw [this, hfat] at hok
        cases hok
  have htk : (plan.take k).length = k := by
    rw [List.length_take]; omega
  have hdrop : plan.drop k = step :: plan.drop (k + 1) := by
    rw [List.drop_eq_getElem_cons hk, hget]
  have happ := runSteps_append env (plan.take k) (plan.drop k) 1 [] hpre
  rw [List.take_append_drop] at happ
  cases hsub : substituteVal (runSteps env 1 [] (plan.take k)).chain step.params with
  | none =>
      exfalso
      rw [happ] at hok
      simp only [htk] at hok
      rw [hdrop, runSteps_cons_fatal env _ _ step _ hsub] at hok
      cases hok
  | some pw =>
      obtain ⟨p', w⟩ := pw
      refine ⟨p', w, rfl, ?_⟩
      have hlen1 : (runSteps env 1 [] (plan.take k)).infos.length = k := by
        rw [runSteps_length env (plan.take k) 1 [] hpre, htk]
      rw [happ]
      simp only [htk]
      rw [List.getElem?_append_right (by rw [hlen1])]
      rw [hlen1, Nat.sub_self, hdrop,
        runSteps_cons_ok env _ _ step _ p' w hsub]
      simp

/-- The report's `executed_steps` are the loop's recorded outcomes,
whether or not an executor-level fault cut the plan short. -/
theorem paew_executed (env : ToolEnv) (ur : String) (plan : List Step) :
    (planAndExecuteWorkflow env ur plan).executed_steps
      = (runSteps env 1 [] plan).infos := by
  cases h : (runSteps env 1 [] plan).fatal with
  | some e => simp [planAndExecuteWorkflow, h]
  | none =>
      simp only [planAndExecuteWorkflow, h]
      split <;> try rfl
      split <;> rfl

/-- The report's `step_results` are the loop's recorded raw results. -/
theorem paew_results (env : ToolEnv) (ur : String) (plan : List Step) :
    (planAndExecuteWorkflow env ur plan).step_results
      = (runSteps env 1 [] plan).results := by
  cases h : (runSteps env 1 [] plan).fatal with
  | some e => simp [planAndExecuteWorkflow, h]
  | none =>
      simp only [planAndExecuteWorkflow, h]
      split <;> try rfl
      split <;> rfl

/-- The aggregation of lines 640-648, for fault-free runs. -/
theorem paew_final_status (env : ToolEnv) (ur : String) (plan : List Step)
    (hok : (runSteps env 1 [] plan).fatal = none) :
    (planAndExecuteWorkflow env ur plan).final_status
      = (if countStatus "error" (runSteps env 1 [] plan).infos = 0 then "success"
         else if 0 < countStatus "completed" (runSteps env 1 [] plan).infos then "partial"
         else "failed") := by
  simp only [planAndExecuteWorkflow, hok]
  split
  · rfl
  · split <;> rfl

/-- Every branch of the iteration body stamps the loop index as
`step_number` and the step's tool name. -/
theorem stepResultOf_number_tool (env : ToolEnv) (i : Nat) (ch : Chain)
    (step : Step) (p' : Val) :
    (stepResultOf env i ch step p').1.step_number = i ∧
    (stepResultOf env i ch step p').1.tool = step.tool := by
  cases hf : env.tools step.tool with
  | none => simp [stepResultOf, hf]
  | some f =>
      cases hres : f (toolCallArg step.tool p') with
      | error e => simp [stepResultOf, hf, hres]
      | ok res =>
          rcases hcr : chainRecord i res ch with ⟨ch', oe⟩
          cases oe <;> simp [stepResultOf, hf, hres, hcr]

/-- A tool name absent from the dispatch table yields an `error`
outcome with the `Unknown tool` message. -/
theorem stepResultOf_unknown (env : ToolEnv) (i : Nat) (ch : Chain)
    (step : Step) (p' : Val) (h : env.tools step.tool = none) :
    (stepResultOf env i ch step p').1.status = "error" ∧
    (stepResultOf env i ch step p').1.error
      = some ("Unknown tool: " ++ step.tool) ∧
    (stepResultOf env i ch step p').2 = ch := by
  simp [stepResultOf, h]

/-- A raising tool yields an `error` outcome carrying the exception's
message. -/
theorem stepResultOf_raise (env : ToolEnv) (i : Nat) (ch : Chain)
    (step : Step) (p' : Val) (f : Val → Except String Val) (e : String)
    (hf : env.tools step.tool = some f)
    (he : f (toolCallArg step.tool p') = .error e) :
    (stepResultOf env i ch step p').1.status = "error" ∧
    (stepResultOf env i ch step p').1.error = some e ∧
    (stepResultOf env i ch step p').1.result = errDict e := by
  simp [stepResultOf, hf, he]

/-- A tool that returns (whatever value) with clean chain recording
yields a `completed` outcome holding the returned value. -/
theorem stepResultOf_ok (env : ToolEnv) (i : Nat) (ch : Chain)
    (step : Step) (p' : Val) (f : Val → Except String Val) (res : Val)
    (ch' : Chain) (hf : env.tools step.tool = some f)
    (hres : f (toolCallArg step.tool p') = .ok res)
    (hcr : chainRecord i res ch = (ch', none)) :
    (stepResultOf env i ch step p').1.status = "completed" ∧
    (stepResultOf env i ch step p').1.result = res ∧
    (stepResultOf env i ch step p').1.error = none := by
  simp [stepResultOf, hf, hres, hcr]

/-! ## Supporting lemmas: the placeholder regex -/

theorem stripPfx_self_append (p r : List Char) : stripPfx p (p ++ r) = some r := by
  induction p with
  | nil => rfl
  | cons a p ih => simp [stripPfx, ih]

theorem stripPfx_eq_some (p : List Char) :
    ∀ cs r, stripPfx p cs = some r → cs = p ++ r := by
  induction p with
  | nil =>
      intro cs r h
      cases h
      rfl
  | cons a p ih =>
      intro cs r h
      cases cs with
      | nil => cases h
      | cons c cs' =>
          unfold stripPfx at h
          by_cases hac : a = c
          · subst hac
            rw [if_pos rfl] at h
            rw [List.cons_append, ← ih cs' r h]
          · rw [if_neg hac] at h
            cases h

theorem takeWhile_app (p : Char → Bool) (xs : List Char) (y : Char)
    (ys : List Char) (hx : ∀ c ∈ xs, p c = true) (hy : p y = false) :
    (xs ++ y :: ys).takeWhile p = xs := by
  induction xs with
  | nil => simp [List.takeWhile_cons, hy]
  | cons a xs ih =>
      have ha : p a = true := hx a (by simp)
      simp only [List.cons_append, List.takeWhile_cons, ha, if_true]
      rw [ih (fun c hc => hx c (by simp [hc]))]

theorem dropWhile_app (p : Char → Bool) (xs : List Char) (y : Char)
    (ys : List Char) (hx : ∀ c ∈ xs, p c = true) (hy : p y = false) :
    (xs ++ y :: ys).dropWhile p = y :: ys := by
  induction xs with
  | nil => simp [List.dropWhile_cons, hy]
  | cons a xs ih =>
      have ha : p a = true := hx a (by simp)
      simp only [List.cons_append, List.dropWhile_cons, ha, if_true]
      exact ih (fun c hc => hx c (by simp [hc]))

theorem isEmpty_false_of_ne {l : List Char} (h : l ≠ []) : l.isEmpty = false := by
  cases l with
  | nil => exact absurd rfl h
  | cons a l => rfl

/-- The regex matches the text it denotes, leaving any continuation
untouched: the digit group is a maximal digit run stopped by `_`, and
the key group a maximal non-`}` run stopped by `}`. -/
theorem matchPH_text (ds key rest : List Char) (hds : ds ≠ [])
    (hdig : ∀ c ∈ ds, c.isDigit = true) (hkey : key ≠ [])
    (hk : ∀ c ∈ key, ¬ c = '\x7d') :
    matchPH (phText ds key ++ rest) = some (ds, key, rest) := by
  have hph : phText ds key ++ rest
      = phOpen ++ (ds ++ '_' :: (key ++ '\x7d' :: rest)) := by
    simp [phText, List.append_assoc]
  have h1 : (ds ++ '_' :: (key ++ '\x7d' :: rest)).takeWhile Char.isDigit = ds :=
    takeWhile_app _ _ _ _ hdig (by decide)
  have h2 : (ds ++ '_' :: (key ++ '\x7d' :: rest)).dropWhile Char.isDigit
      = '_' :: (key ++ '\x7d' :: rest) :=
    dropWhile_app _ _ _ _ hdig (by decide)
  have hkb : ∀ c ∈ key, (fun c => c != '\x7d') c = true := by
    intro c hc
    simpa using hk c hc
  have h3 : (key ++ '\x7d' :: rest).takeWhile (fun c => c != '\x7d') = key :=
    takeWhile_app _ _ _ _ hkb (by decide)
  have h4 : (key ++ '\x7d' :: rest).dropWhile (fun c => c != '\x7d')
      = '\x7d' :: rest :=
    dropWhile_app _ _ _ _ hkb (by decide)
  rw [hph]
  unfold matchPH
  rw [stripPfx_self_append]
  simp only [h1, h2, h3, h4, isEmpty_false_of_ne hds, isEmpty_false_of_ne hkey]
  rfl

/-- A successful match decomposes its input as the matched text
followed by the remainder, with well-formed groups. -/
theorem matchPH_full_decomp (cs ds key rest : List Char)
    (h : matchPH cs = some (ds, key, rest)) :
    cs = phText ds key ++ rest ∧ ds ≠ [] ∧ (∀ c ∈ ds, c.isDigit = true) ∧
      key ≠ [] ∧ (∀ c ∈ key, ¬ c = '\x7d') := by
  unfold matchPH at h
  split at h
  · cases h
  · rename_i r1 hsp
    split at h
    · cases h
    · rename_i hde
      split at h
      · rename_i r3 heq
        split at h
        · cases h
        · rename_i hke
          split at h
          · rename_i rest' heq2
            cases h
            have hcs : cs = phOpen ++ r1 := stripPfx_eq_some phOpen cs r1 hsp
            have hr1 : r1 = (r1.takeWhile Char.isDigit) ++ '_' :: r3 := by
              conv_lhs => rw [← List.takeWhile_append_dropWhile Char.isDigit r1]
              rw [heq]
            have hr3 : r3 = (r3.takeWhile (fun c => c != '\x7d')) ++ '\x7d' :: rest := by
              conv_lhs => rw [← List.takeWhile_append_dropWhile
                (fun c => c != '\x7d') r3]
              rw [heq2]
            refine ⟨?_, ?_, ?_, ?_, ?_⟩
            · rw [hcs]
              conv_lhs => rw [hr1]
              conv_lhs => rw [hr3]
              simp [phText, List.append_assoc]
            · intro hnil
              rw [hnil] at hde
              exact hde rfl
            · intro c hc
              exact List.mem_takeWhile_imp hc
            · intro hnil
              rw [hnil] at hke
              exact hke rfl
            · intro c hc
              simpa using List.mem_takeWhile_imp hc
          · cases h
      · cases h

/-- A successful match consumes at least one character. -/
theorem matchPH_rest_lt (cs ds key rest : List Char)
    (h : matchPH cs = some (ds, key, rest)) : rest.length < cs.length := by
  obtain ⟨hcs, _, _, _, _⟩ := matchPH_full_decomp cs ds key rest h
  rw [hcs]
  simp [phText, phOpen]
  omega

theorem matchPH_nil : matchPH ([] : List Char) = none := rfl

/-- Positions not starting with `$` never match. -/
theorem matchPH_cons_not_dollar (c : Char) (cs : List Char) (h : ¬ c = '$') :
    matchPH (c :: cs) = none := by
  unfold matchPH
  have : stripPfx phOpen (c :: cs) = none := by
    unfold phOpen stripPfx
    rw [if_neg (fun he => h he.symm)]
  rw [this]

/-- `reSubF` ignores the exact fuel once it covers the input length
(each step consumes at least one character). -/
theorem reSubF_congr (ws : Chain) (orig : List Char) :
    ∀ fuel1 fuel2 l, l.length ≤ fuel1 → l.length ≤ fuel2 →
      reSubF ws orig fuel1 l = reSubF ws orig fuel2 l := by
  intro fuel1
  induction fuel1 with
  | zero =>
      intro fuel2 l h1 h2
      cases l with
      | nil => cases fuel2 <;> rfl
      | cons c cs => simp at h1
  | succ f ih =>
      intro fuel2 l h1 h2
      cases l with
      | nil => cases fuel2 <;> rfl
      | cons c cs =>
          cases fuel2 with
          | zero => simp at h2
          | succ f2 =>
              simp only [List.length_cons] at h1 h2
              cases hm : matchPH (c :: cs) with
              | none =>
                  simp only [reSubF, hm]
                  rw [ih f2 cs (by omega) (by omega)]
              | some t =>
                  obtain ⟨ds, key, rest⟩ := t
                  have hlt := matchPH_rest_lt _ _ _ _ hm
                  simp only [List.length_cons] at hlt
                  simp only [reSubF, hm]
                  rcases hr : reSubRepl ws orig ds key with ⟨o, warns⟩
                  cases o with
                  | none => rfl
                  | some out =>
                      rw [ih f2 rest (by omega) (by omega)]

/-- A stretch of text containing no `$` is copied verbatim with no
warnings. -/
theorem reSubF_nodollar (ws : Chain) (orig : List Char) :
    ∀ l fuel, l.length ≤ fuel → (∀ c ∈ l, ¬ c = '$') →
      reSubF ws orig fuel l = some (l, []) := by
  intro l
  induction l with
  | nil => intro fuel _ _; cases fuel <;> rfl
  | cons c cs ih =>
      intro fuel h hd
      cases fuel with
      | zero => simp at h
      | succ f =>
          have hm : matchPH (c :: cs) = none :=
            matchPH_cons_not_dollar c cs (hd c (by simp))
          simp only [List.length_cons] at h
          simp only [reSubF, hm]
          rw [ih f (by omega) (fun x hx => hd x (by simp [hx]))]

/-- Scanning passes over a `$`-free prefix, substituting only in the
remainder. -/
theorem reSubF_copy (ws : Chain) (orig : List Char) (pre : List Char)
    (hpre : ∀ c ∈ pre, ¬ c = '$') :
    ∀ rest fuel, (pre ++ rest).length ≤ fuel →
      reSubF ws orig fuel (pre ++ rest)
        = (reSubF ws orig fuel rest).map (fun q => (pre ++ q.1, q.2)) := by
  induction pre with
  | nil =>
      intro rest fuel h
      simp only [List.nil_append]
      cases reSubF ws orig fuel rest <;> simp
  | cons c pre ih =>
      intro rest fuel h
      cases fuel with
      | zero => simp at h
      | succ f =>
          have hm : matchPH (c :: (pre ++ rest)) = none :=
            matchPH_cons_not_dollar c _ (hpre c (by simp))
          simp only [List.cons_append, List.length_cons, List.length_append] at h ⊢
          simp only [reSubF, hm]
          rw [ih (fun x hx => hpre x (by simp [hx])) rest f
            (by simp [List.length_append]; omega)]
          rw [reSubF_congr ws orig (f + 1) f rest (by omega) (by omega)]
          cases reSubF ws orig f rest <;> simp

/-- The cons-expanded spelling of the matched text, used to step the
scanner. -/
theorem phText_cons (ds key suf : List Char) :
    phText ds key ++ suf
      = '$' :: ('\x7b' :: 's' :: 't' :: 'e' :: 'p' :: '_'
          :: (ds ++ '_' :: (key ++ '\x7d' :: suf))) := by
  simp [phText, phOpen, List.append_assoc]

/-- Scanning at a recorded placeholder whose surroundings keep the
whole string from being exactly the placeholder splices in
`str(value)` and continues after the closing brace. -/
theorem reSubF_match_recorded (ws : Chain) (orig ds key suf : List Char)
    (v : Val) (fuel : Nat) (hds : ds ≠ [])
    (hdig : ∀ c ∈ ds, c.isDigit = true) (hkey : key ≠ [])
    (hk : ∀ c ∈ key, ¬ c = '\x7d')
    (hfuel : (phText ds key ++ suf).length ≤ fuel)
    (hv : alookup (stepKeyOf ds key) ws = some v)
    (hne : ¬ pyStrip orig = phText ds key) :
    reSubF ws orig fuel (phText ds key ++ suf)
      = (reSubF ws orig fuel suf).map (fun q => (pyStr v ++ q.1, q.2)) := by
  have hm : matchPH (phText ds key ++ suf) = some (ds, key, suf) :=
    matchPH_text ds key suf hds hdig hkey hk
  have hlsuf : suf.length < (phText ds key ++ suf).length := by
    simp [phText, phOpen]
    omega
  have hsuf : suf.length < fuel := Nat.lt_of_lt_of_le hlsuf hfuel
  cases fuel with
  | zero => simp at hsuf
  | succ f =>
      rw [phText_cons] at hm ⊢
      simp only [reSubF, hm]
      have hr : reSubRepl ws orig ds key = (some (pyStr v), []) := by
        simp [reSubRepl, hv, hne]
      rw [hr]
      rw [reSubF_congr ws orig (f + 1) f suf
        (Nat.le_succ_of_le (Nat.lt_succ_iff.mp hsuf)) (Nat.lt_succ_iff.mp hsuf)]
      cases reSubF ws orig f suf <;> simp

/-- Scanning at an unrecorded placeholder leaves the matched text in
place and logs one warning naming the missing key. -/
theorem reSubF_match_unrecorded (ws : Chain) (orig ds key suf : List Char)
    (fuel : Nat) (hds : ds ≠ [])
    (hdig : ∀ c ∈ ds, c.isDigit = true) (hkey : key ≠ [])
    (hk : ∀ c ∈ key, ¬ c = '\x7d')
    (hfuel : (phText ds key ++ suf).length ≤ fuel)
    (hv : alookup (stepKeyOf ds key) ws = none) :
    reSubF ws orig fuel (phText ds key ++ suf)
      = (reSubF ws orig fuel suf).map
          (fun q => (phText ds key ++ q.1, stepKeyOf ds key :: q.2)) := by
  have hm : matchPH (phText ds key ++ suf) = some (ds, key, suf) :=
    matchPH_text ds key suf hds hdig hkey hk
  have hlsuf : suf.length < (phText ds key ++ suf).length := by
    simp [phText, phOpen]
    omega
  have hsuf : suf.length < fuel := Nat.lt_of_lt_of_le hlsuf hfuel
  cases fuel with
  | zero => simp at hsuf
  | succ f =>
      rw [phText_cons] at hm ⊢
      simp only [reSubF, hm]
      have hr : reSubRepl ws orig ds key
          = (some (phText ds key), [stepKeyOf ds key]) := by
        simp [reSubRepl, hv]
      rw [hr]
      rw [reSubF_congr ws orig (f + 1) f suf
        (Nat.le_succ_of_le (Nat.lt_succ_iff.mp hsuf)) (Nat.lt_succ_iff.mp hsuf)]
      cases reSubF ws orig f suf <;> simp [phText_cons]

/-! ## Supporting lemmas: `str.strip()` -/

theorem dropWhile_ws_append (pre cs : List Char)
    (h : ∀ c ∈ pre, isPySpace c = true) :
    (pre ++ cs).dropWhile isPySpace = cs.dropWhile isPySpace := by
  induction pre with
  | nil => rfl
  | cons a pre ih =>
      simp only [List.cons_append, List.dropWhile_cons, h a (by simp), if_true]
      exact ih (fun c hc => h c (by simp [hc]))

/-- Leading whitespace never affects the stripped string. -/
theorem pyStrip_ws_append (pre cs : List Char)
    (h : ∀ c ∈ pre, isPySpace c = true) :
    pyStrip (pre ++ cs) = pyStrip cs := by
  unfold pyStrip
  rw [dropWhile_ws_append pre cs h]

/-- The head exposed by `dropWhile` falsifies the predicate. -/
theorem dropWhile_head_false (p : Char → Bool) :
    ∀ (l : List Char) c t, l.dropWhile p = c :: t → p c = false := by
  intro l
  induction l with
  | nil => intro c t h; cases h
  | cons a l ih =>
      intro c t h
      rw [List.dropWhile_cons] at h
      by_cases ha : p a = true
      · rw [if_pos ha] at h
        exact ih c t h
      · rw [if_neg ha] at h
        cases h
        exact Bool.not_eq_true _ |>.mp ha

/-- The right-strip side of `pyStrip` only removes characters from the
end: the result is a prefix of the input. -/
theorem rstrip_prefix (p : Char → Bool) (l : List Char) :
    (l.reverse.dropWhile p).reverse <+: l := by
  have h : l.reverse.dropWhile p <:+ l.reverse :=
    List.dropWhile_suffix p
  have h2 := List.reverse_prefix.mpr h
  simpa using h2

/-- Stripping a string headed (after leading whitespace) by the
placeholder text yields the placeholder text followed by the
right-stripped remainder. -/
theorem pyStrip_ph (pre ds key suf : List Char)
    (hpre : ∀ c ∈ pre, isPySpace c = true) :
    pyStrip (pre ++ phText ds key ++ suf)
      = phText ds key ++ (suf.reverse.dropWhile isPySpace).reverse := by
  rw [List.append_assoc, pyStrip_ws_append pre _ hpre]
  unfold pyStrip
  have h1 : (phText ds key ++ suf).dropWhile isPySpace = phText ds key ++ suf := by
    rw [phText_cons, List.dropWhile_cons]
    have hds2 : isPySpace '$' = false := rfl
    rw [hds2]
    simp
  rw [h1]
  have h2 : (phText ds key).reverse
      = '\x7d' :: (phOpen ++ ds ++ '_' :: key).reverse := by
    have hsplit : phText ds key = (phOpen ++ ds ++ '_' :: key) ++ ['\x7d'] := by
      simp [phText, List.append_assoc]
    rw [hsplit]
    simp
  have h3 : (phText ds key).reverse.dropWhile isPySpace
      = (phText ds key).reverse := by
    rw [h2, List.dropWhile_cons]
    have hbr : isPySpace '\x7d' = false := rfl
    rw [hbr]
    simp
  rw [List.reverse_append, List.dropWhile_append]
  by_cases hsw : (suf.reverse.dropWhile isPySpace).isEmpty
  · rw [if_pos hsw, h3, List.reverse_reverse]
    have hemp : suf.reverse.dropWhile isPySpace = [] := by
      cases he : suf.reverse.dropWhile isPySpace with
      | nil => rfl
      | cons a t => rw [he] at hsw; cases hsw
    rw [hemp]
    simp
  · rw [if_neg hsw, List.reverse_append, List.reverse_reverse]

/-- The placeholder text spelled as a cons cell. -/
theorem phText_eq_cons (ds key : List Char) :
    phText ds key
      = '$' :: ('\x7b' :: 's' :: 't' :: 'e' :: 'p' :: '_'
          :: (ds ++ '_' :: (key ++ ['\x7d']))) := by
  have h := phText_cons ds key []
  simpa using h

/-- When the text before the placeholder has real content (a non-space,
non-`$` character), the stripped string neither fullmatches nor equals
any placeholder text. -/
theorem pyStrip_not_dollar_head (pre rest : List Char)
    (hx : ∃ c ∈ pre, isPySpace c = false) (hd : ∀ c ∈ pre, ¬ c = '$') :
    matchPH (pyStrip (pre ++ rest)) = none ∧
    (∀ ds key, ¬ pyStrip (pre ++ rest) = phText ds key) := by
  have hdnn : pre.dropWhile isPySpace ≠ [] := by
    intro h0
    obtain ⟨c, hc, hcw⟩ := hx
    have := (List.dropWhile_eq_nil_iff.mp h0) c hc
    rw [this] at hcw
    cases hcw
  obtain ⟨c0, d', hd0⟩ := List.exists_cons_of_ne_nil hdnn
  have hc0pre : c0 ∈ pre := by
    have hsuffix : pre.dropWhile isPySpace <:+ pre := List.dropWhile_suffix _
    exact hsuffix.mem (by rw [hd0]; simp)
  have hc0d : ¬ c0 = '$' := hd c0 hc0pre
  have hstep1 : (pre ++ rest).dropWhile isPySpace = c0 :: (d' ++ rest) := by
    rw [List.dropWhile_append, hd0]
    simp
  have hprefix : pyStrip (pre ++ rest) <+: c0 :: (d' ++ rest) := by
    unfold pyStrip
    rw [hstep1]
    exact rstrip_prefix isPySpace _
  have hshape : pyStrip (pre ++ rest) = []
      ∨ ∃ t, pyStrip (pre ++ rest) = c0 :: t := by
    cases hp : pyStrip (pre ++ rest) with
    | nil => exact Or.inl rfl
    | cons a t =>
        rw [hp] at hprefix
        obtain ⟨hac, -⟩ := List.cons_prefix_cons.mp hprefix
        exact Or.inr ⟨t, by rw [hac]⟩
  rcases hshape with h0 | ⟨t, ht⟩
  · refine ⟨by rw [h0]; exact matchPH_nil, ?_⟩
    intro ds key hcontra
    rw [h0, phText_eq_cons ds key] at hcontra
    cases hcontra
  · refine ⟨by rw [ht]; exact matchPH_cons_not_dollar c0 t hc0d, ?_⟩
    intro ds key hcontra
    rw [ht, phText_eq_cons ds key] at hcontra
    injection hcontra with hh1 hh2
    exact hc0d hh1

/-- `re.sub` over text that is a `$`-free prefix, one recorded
placeholder whose surroundings keep the whole string from equalling
the match, and a `$`-free suffix: the placeholder becomes
`str(value)`. -/
theorem reSub_recorded (ws : Chain) (pre ds key suf : List Char) (v : Val)
    (hds : ds ≠ []) (hdig : ∀ c ∈ ds, c.isDigit = true) (hkey : key ≠ [])
    (hk : ∀ c ∈ key, ¬ c = '\x7d')
    (hpre : ∀ c ∈ pre, ¬ c = '$') (hsuf : ∀ c ∈ suf, ¬ c = '$')
    (hv : alookup (stepKeyOf ds key) ws = some v)
    (hne : ¬ pyStrip (pre ++ phText ds key ++ suf) = phText ds key) :
    reSub ws (pre ++ phText ds key ++ suf)
      = some (pre ++ pyStr v ++ suf, []) := by
  unfold reSub
  rw [List.append_assoc]
  rw [reSubF_copy ws _ pre hpre (phText ds key ++ suf) _ (Nat.le_refl _)]
  rw [reSubF_match_recorded ws _ ds key suf v _ hds hdig hkey hk
    (by simp [List.length_append]) hv
    (by rw [← List.append_assoc]; exact hne)]
  rw [reSubF_nodollar ws _ suf _ (by simp [List.length_append]; omega) hsuf]
  simp [List.append_assoc]

/-- `re.sub` over the same shape with an unrecorded key: the
placeholder text stays and one warning is logged. -/
theorem reSub_unrecorded (ws : Chain) (pre ds key suf : List Char)
    (hds : ds ≠ []) (hdig : ∀ c ∈ ds, c.isDigit = true) (hkey : key ≠ [])
    (hk : ∀ c ∈ key, ¬ c = '\x7d')
    (hpre : ∀ c ∈ pre, ¬ c = '$') (hsuf : ∀ c ∈ suf, ¬ c = '$')
    (hv : alookup (stepKeyOf ds key) ws = none) :
    reSub ws (pre ++ phText ds key ++ suf)
      = some (pre ++ phText ds key ++ suf, [stepKeyOf ds key]) := by
  unfold reSub
  rw [List.append_assoc]
  rw [reSubF_copy ws _ pre hpre (phText ds key ++ suf) _ (Nat.le_refl _)]
  rw [reSubF_match_unrecorded ws _ ds key suf _ hds hdig hkey hk
    (by simp [List.length_append]) hv]
  rw [reSubF_nodollar ws _ suf _ (by simp [List.length_append]; omega) hsuf]
  simp [List.append_assoc]

/-- C4: placeholder substitution as a function of the recorded result
chain.  (i) A parameter that — after trimming whitespace — is exactly
one `${step_N_key}` whose key is recorded becomes the recorded value
verbatim, type preserved.  (ii) A placeholder embedded in a longer
string is replaced by `str(value)`, leaving the surroundings
untouched.  (iii) A placeholder whose key was never recorded is left
literally in the output, one warning naming the key is emitted, and
substitution still returns a value (execution proceeds). -/
theorem c4_placeholder_substitution (ws : Chain) (ds key : List Char)
    (hds : ds ≠ []) (hdig : ∀ c ∈ ds, c.isDigit = true)
    (hkey : key ≠ []) (hk : ∀ c ∈ key, ¬ c = '\x7d') :
    (∀ pre suf v, (∀ c ∈ pre, isPySpace c = true) →
      (∀ c ∈ suf, isPySpace c = true) →
      alookup (stepKeyOf ds key) ws = some v →
      substituteVal ws (.str (pre ++ phText ds key ++ suf)) = some (v, [])) ∧
    (∀ pre suf v, (∀ c ∈ pre, ¬ c = '$') → (∀ c ∈ suf, ¬ c = '$') →
      (∃ c ∈ pre ++ suf, isPySpace c = false) →
      alookup (stepKeyOf ds key) ws = some v →
      substituteVal ws (.str (pre ++ phText ds key ++ suf))
        = some (.str (pre ++ pyStr v ++ suf), [])) ∧
    (∀ pre suf, (∀ c ∈ pre, ¬ c = '$') → (∀ c ∈ suf, ¬ c = '$') →
      alookup (stepKeyOf ds key) ws = none →
      substituteVal ws (.str (pre ++ phText ds key ++ suf))
        = some (.str (pre ++ phText ds key ++ suf), [stepKeyOf ds key])) := by
  refine ⟨?_, ?_, ?_⟩
  · -- (i) whole string, recorded: the fullmatch fast path returns the value
    intro pre suf v hpw hsw hv
    have hrt : suf.reverse.dropWhile isPySpace = [] :=
      List.dropWhile_eq_nil_iff.mpr (fun c hc => hsw c (List.mem_reverse.mp hc))
    have hstrip : pyStrip (pre ++ phText ds key ++ suf) = phText ds key := by
      rw [pyStrip_ph pre ds key suf hpw, hrt]
      simp
    have hm : matchPH (pyStrip (pre ++ phText ds key ++ suf))
        = some (ds, key, []) := by
      rw [hstrip]
      have h := matchPH_text ds key [] hds hdig hkey hk
      simpa using h
    simp only [substituteVal, substituteStr, hm, hv]
  · -- (ii) embedded, recorded: re.sub splices str(value)
    intro pre suf v hpre hsuf hex hv
    by_cases hpw : ∀ c ∈ pre, isPySpace c = true
    · have hsx : ∃ c ∈ suf, isPySpace c = false := by
        obtain ⟨c, hc, hcf⟩ := hex
        rcases List.mem_append.mp hc with h | h
        · rw [hpw c h] at hcf
          cases hcf
        · exact ⟨c, h, hcf⟩
      have hrtne : suf.reverse.dropWhile isPySpace ≠ [] := by
        intro h0
        obtain ⟨c, hc, hcf⟩ := hsx
        have := List.dropWhile_eq_nil_iff.mp h0 c (List.mem_reverse.mpr hc)
        rw [this] at hcf
        cases hcf
      have hstrip := pyStrip_ph pre ds key suf hpw
      have hrevne : (suf.reverse.dropWhile isPySpace).reverse ≠ [] := by
        simpa using hrtne
      obtain ⟨a, t', hat⟩ := List.exists_cons_of_ne_nil hrevne
      rw [hat] at hstrip
      have hm : matchPH (pyStrip (pre ++ phText ds key ++ suf))
          = some (ds, key, a :: t') := by
        rw [hstrip]
        exact matchPH_text ds key _ hds hdig hkey hk
      have hne : ¬ pyStrip (pre ++ phText ds key ++ suf) = phText ds key := by
        rw [hstrip]
        intro hcontra
        have hlen := congrArg List.length hcontra
        simp [List.length_append] at hlen
      simp only [substituteVal, substituteStr, hm]
      rw [reSub_recorded ws pre ds key suf v hds hdig hkey hk hpre hsuf hv hne]
      rfl
    · have hx : ∃ c ∈ pre, isPySpace c = false := by
        push_neg at hpw
        obtain ⟨c, hc, hcf⟩ := hpw
        exact ⟨c, hc, Bool.not_eq_true _ |>.mp hcf⟩
      have hph := pyStrip_not_dollar_head pre (phText ds key ++ suf) hx hpre
      have hm : matchPH (pyStrip (pre ++ phText ds key ++ suf)) = none := by
        rw [List.append_assoc]
        exact hph.1
      have hne : ¬ pyStrip (pre ++ phText ds key ++ suf) = phText ds key := by
        rw [List.append_assoc]
        exact hph.2 ds key
      simp only [substituteVal, substituteStr, hm]
      rw [reSub_recorded ws pre ds key suf v hds hdig hkey hk hpre hsuf hv hne]
      rfl
  · -- (iii) unrecorded: literal text survives with one warning
    intro pre suf hpre hsuf hv
    by_cases hpw : ∀ c ∈ pre, isPySpace c = true
    · cases hre : (suf.reverse.dropWhile isPySpace).reverse with
      | nil =>
          have hstrip : pyStrip (pre ++ phText ds key ++ suf) = phText ds key := by
            rw [pyStrip_ph pre ds key suf hpw, hre]
            simp
          have hm : matchPH (pyStrip (pre ++ phText ds key ++ suf))
              = some (ds, key, []) := by
            rw [hstrip]
            have h := matchPH_text ds key [] hds hdig hkey hk
            simpa using h
          simp only [substituteVal, substituteStr, hm, hv]
          rw [reSub_unrecorded ws pre ds key suf hds hdig hkey hk hpre hsuf hv]
          rfl
      | cons a t' =>
          have hstrip := pyStrip_ph pre ds key suf hpw
          rw [hre] at hstrip
          have hm : matchPH (pyStrip (pre ++ phText ds key ++ suf))
              = some (ds, key, a :: t') := by
            rw [hstrip]
            exact matchPH_text ds key _ hds hdig hkey hk
          simp only [substituteVal, substituteStr, hm]
          rw [reSub_unrecorded ws pre ds key suf hds hdig hkey hk hpre hsuf hv]
          rfl
    · have hx : ∃ c ∈ pre, isPySpace c = false := by
        push_neg at hpw
        obtain ⟨c, hc, hcf⟩ := hpw
        exact ⟨c, hc, Bool.not_eq_true _ |>.mp hcf⟩
      have hph := pyStrip_not_dollar_head pre (phText ds key ++ suf) hx hpre
      have hm : matchPH (pyStrip (pre ++ phText ds key ++ suf)) = none := by
        rw [List.append_assoc]
        exact hph.1
      simp only [substituteVal, substituteStr, hm]
      rw [reSub_unrecorded ws pre ds key suf hds hdig hkey hk hpre hsuf hv]
      rfl

theorem c4_placeholder_substitution_witness :
    substituteVal demoChain (.str ([] ++ phText ['1'] "element_ids".data ++ []))
      = some (Val.list [.str "1".data, .str "2".data, .str "3".data], []) ∧
    substituteVal demoChain
        (.str ("ids: ".data ++ phText ['1'] "element_ids".data ++ []))
      = some (.str ("ids: ".data
          ++ pyStr (Val.list [.str "1".data, .str "2".data, .str "3".data])
          ++ []), []) ∧
    substituteVal demoChain (.str ([] ++ phText ['2'] "count".data ++ []))
      = some (.str ([] ++ phText ['2'] "count".data ++ []),
          [stepKeyOf ['2'] "count".data]) := by
  refine ⟨?_, ?_, ?_⟩
  · exact (c4_placeholder_substitution demoChain ['1'] "element_ids".data
      (by decide) (by decide) (by decide) (by decide)).1 [] []
      (Val.list [.str "1".data, .str "2".data, .str "3".data])
      (by decide) (by decide) rfl
  · exact (c4_placeholder_substitution demoChain ['1'] "element_ids".data
      (by decide) (by decide) (by decide) (by decide)).2.1 "ids: ".data []
      (Val.list [.str "1".data, .str "2".data, .str "3".data])
      (by decide) (by decide) (by decide) rfl
  · exact (c4_placeholder_substitution demoChain ['2'] "count".data
      (by decide) (by decide) (by decide) (by decide)).2.2 [] []
      (by decide) (by decide) rfl

/-! ## Claims about the workflow executor -/

/-- C3: for every plan whose run finishes without an executor-level
fault, `final_status` is a function of the per-step outcomes alone:
zero `error` outcomes gives `success`; at least one `completed` and at
least one `error` gives `partial`; a nonempty plan whose every outcome
is `error` gives `failed`. -/
theorem c3_final_aggregation (env : ToolEnv) (ur : String) (plan : List Step)
    (hok : (runSteps env 1 [] plan).fatal = none) :
    (countStatus "error" (planAndExecuteWorkflow env ur plan).executed_steps = 0 →
      (planAndExecuteWorkflow env ur plan).final_status = "success") ∧
    (0 < countStatus "completed" (planAndExecuteWorkflow env ur plan).executed_steps →
      0 < countStatus "error" (planAndExecuteWorkflow env ur plan).executed_steps →
      (planAndExecuteWorkflow env ur plan).final_status = "partial") ∧
    (0 < (planAndExecuteWorkflow env ur plan).executed_steps.length →
      (∀ si ∈ (planAndExecuteWorkflow env ur plan).executed_steps,
        si.status = "error") →
      (planAndExecuteWorkflow env ur plan).final_status = "failed") := by
  rw [paew_final_status env ur plan hok, paew_executed env ur plan]
  refine ⟨?_, ?_, ?_⟩
  · intro h
    rw [if_pos h]
  · intro hc he
    rw [if_neg (Nat.pos_iff_ne_zero.mp he), if_pos hc]
  · intro hne hall
    have hcz : countStatus "completed" (runSteps env 1 [] plan).infos = 0 := by
      unfold countStatus
      rw [List.length_eq_zero, List.filter_eq_nil_iff]
      intro si hsi
      rw [hall si hsi]
      decide
    have hez : countStatus "error" (runSteps env 1 [] plan).infos ≠ 0 := by
      obtain ⟨si, hsi⟩ :=
        List.exists_mem_of_ne_nil _ (List.length_pos.mp hne)
      have hmem : si ∈ (runSteps env 1 [] plan).infos.filter
          (fun s => s.status == "error") :=
        List.mem_filter.mpr ⟨hsi, by rw [hall si hsi]; rfl⟩
      intro h0
      unfold countStatus at h0
      rw [List.length_eq_zero] at h0
      rw [h0] at hmem
      cases hmem
    rw [if_neg hez, hcz]
    rfl

theorem c3_final_aggregation_witness :
    (planAndExecuteWorkflow demoToolEnv "u"
        [⟨"good", Val.dict [], ""⟩]).final_status = "success" ∧
    (planAndExecuteWorkflow demoToolEnv "u"
        [⟨"good", Val.dict [], ""⟩, ⟨"bad", Val.dict [], ""⟩]).final_status
      = "partial" ∧
    (planAndExecuteWorkflow demoToolEnv "u"
        [⟨"bad", Val.dict [], ""⟩]).final_status = "failed" :=
  ⟨(c3_final_aggregation demoToolEnv "u" [⟨"good", Val.dict [], ""⟩]
      (by rfl)).1 (by decide),
   (c3_final_aggregation demoToolEnv "u"
      [⟨"good", Val.dict [], ""⟩, ⟨"bad", Val.dict [], ""⟩] (by rfl)).2.1
      (by decide) (by decide),
   (c3_final_aggregation demoToolEnv "u" [⟨"bad", Val.dict [], ""⟩]
      (by rfl)).2.2 (by decide) (by decide)⟩

/-- C6: the executor is fail-soft per step.  In a fault-free run there
is exactly one outcome per step, in step order (`step_number = k + 1`,
the step's own tool name), with the raw result or error object at the
matching index of `step_results`; a step whose tool is absent from the
dispatch table records an `error` outcome with a descriptive message
and execution continues (later steps still have outcomes); a step
whose tool raises records an `error` outcome carrying the exception's
message. -/
theorem c6_per_step_fail_soft (env : ToolEnv) (ur : String) (plan : List Step)
    (hok : (runSteps env 1 [] plan).fatal = none) :
    (planAndExecuteWorkflow env ur plan).executed_steps.length = plan.length ∧
    (planAndExecuteWorkflow env ur plan).step_results.length = plan.length ∧
    (∀ k step si,
      plan[k]? = some step →
      (planAndExecuteWorkflow env ur plan).executed_steps[k]? = some si →
      (si.step_number = k + 1 ∧ si.tool = step.tool ∧
        (planAndExecuteWorkflow env ur plan).step_results[k]? = some si.result ∧
        (env.tools step.tool = none →
          si.status = "error" ∧
          si.error = some ("Unknown tool: " ++ step.tool)) ∧
        (∀ f p' w e, env.tools step.tool = some f →
          substituteVal (runSteps env 1 [] (plan.take k)).chain step.params
            = some (p', w) →
          f (toolCallArg step.tool p') = .error e →
          si.status = "error" ∧ si.error = some e))) := by
  have hlen : (runSteps env 1 [] plan).infos.length = plan.length :=
    runSteps_length env plan 1 [] hok
  refine ⟨by rw [paew_executed]; exact hlen, ?_, ?_⟩
  · rw [paew_results, runSteps_results_map, List.length_map]
    exact hlen
  · intro k step si hstep hsi
    rw [paew_executed] at hsi
    obtain ⟨p0, w0, hsub0, hidx⟩ := runSteps_char env plan k step hok hstep
    rw [hidx] at hsi
    cases hsi
    refine ⟨?_, ?_, ?_, ?_, ?_⟩
    · rw [(stepResultOf_number_tool env (1 + k) _ step p0).1, Nat.add_comm]
    · exact (stepResultOf_number_tool env (1 + k) _ step p0).2
    · rw [paew_results, runSteps_results_map, List.getElem?_map, hidx]
      rfl
    · intro hnone
      exact ⟨(stepResultOf_unknown env (1 + k) _ step p0 hnone).1,
        (stepResultOf_unknown env (1 + k) _ step p0 hnone).2.1⟩
    · intro f p' w e hf hsub he
      have : p' = p0 := by
        rw [hsub0] at hsub
        cases hsub
        rfl
      subst this
      exact ⟨(stepResultOf_raise env (1 + k) _ step p' f e hf he).1,
        (stepResultOf_raise env (1 + k) _ step p' f e hf he).2.1⟩

theorem c6_per_step_fail_soft_witness :
    (planAndExecuteWorkflow demoToolEnv "u"
        [⟨"nope", Val.dict [], ""⟩, ⟨"bad", Val.dict [], ""⟩]).executed_steps.length
      = 2 ∧
    (⟨1, "nope", "", "error", some "Unknown tool: nope",
        errDict ("Tool " ++ sqs ++ "nope" ++ sqs ++ " not available")⟩ : StepInfo).status
      = "error" ∧
    (⟨1, "nope", "", "error", some "Unknown tool: nope",
        errDict ("Tool " ++ sqs ++ "nope" ++ sqs ++ " not available")⟩ : StepInfo).error
      = some ("Unknown tool: " ++ "nope") ∧
    (⟨2, "bad", "", "error", some "kaboom", errDict "kaboom"⟩ : StepInfo).status
      = "error" ∧
    (⟨2, "bad", "", "error", some "kaboom", errDict "kaboom"⟩ : StepInfo).error
      = some "kaboom" := by
  have h := c6_per_step_fail_soft demoToolEnv "u"
    [⟨"nope", Val.dict [], ""⟩, ⟨"bad", Val.dict [], ""⟩] (by rfl)
  refine ⟨h.1, ?_, ?_, ?_, ?_⟩
  · exact ((h.2.2 0 ⟨"nope", Val.dict [], ""⟩ _ (by rfl) (by rfl)).2.2.2.1 (by rfl)).1
  · exact ((h.2.2 0 ⟨"nope", Val.dict [], ""⟩ _ (by rfl) (by rfl)).2.2.2.1 (by rfl)).2
  · exact ((h.2.2 1 ⟨"bad", Val.dict [], ""⟩ _ (by rfl) (by rfl)).2.2.2.2
      (fun _ => .error "kaboom") (Val.dict []) [] "kaboom" (by rfl) (by rfl)
      (by rfl)).1
  · exact ((h.2.2 1 ⟨"bad", Val.dict [], ""⟩ _ (by rfl) (by rfl)).2.2.2.2
      (fun _ => .error "kaboom") (Val.dict []) [] "kaboom" (by rfl) (by rfl)
      (by rfl)).2

/-- C7 (counterexample): a tool that returns — without raising — a
value of the uniform failure shape `{"status": "error", "message":
...}` is not detected as a failure: the step is recorded `completed`,
zero `error` outcomes are counted, and the workflow aggregates to
`success`. -/
theorem c7_uniform_failure_counterexample :
    (planAndExecuteWorkflow errShapeToolEnv "u"
        [⟨"t", Val.dict [], "d"⟩]).final_status = "success" ∧
    (planAndExecuteWorkflow errShapeToolEnv "u"
        [⟨"t", Val.dict [], "d"⟩]).executed_steps.map (fun si => si.status)
      = ["completed"] ∧
    countStatus "error" (planAndExecuteWorkflow errShapeToolEnv "u"
        [⟨"t", Val.dict [], "d"⟩]).executed_steps = 0 :=
  ⟨rfl, rfl, rfl⟩

/-- C7 (amended): the executor does not inspect returned values for
the uniform failure shape: any tool that returns without raising —
including a result `{"status": "error", "message": ...}` — is recorded
as a `completed` StepOutcome holding that value, and only raised
exceptions and missing tools produce `error` outcomes. -/
theorem c7_value_failures_not_detected (env : ToolEnv) (ur : String)
    (plan : List Step) (hok : (runSteps env 1 [] plan).fatal = none)
    (k : Nat) (step : Step) (si : StepInfo) (f : Val → Except String Val)
    (p' : Val) (w : List (List Char)) (res : Val) (ch' : Chain)
    (hstep : plan[k]? = some step)
    (hsi : (planAndExecuteWorkflow env ur plan).executed_steps[k]? = some si)
    (hf : env.tools step.tool = some f)
    (hsub : substituteVal (runSteps env 1 [] (plan.take k)).chain step.params
      = some (p', w))
    (hres : f (toolCallArg step.tool p') = .ok res)
    (hcr : chainRecord (1 + k) res (runSteps env 1 [] (plan.take k)).chain
      = (ch', none)) :
    si.status = "completed" ∧ si.result = res ∧ si.error = none := by
  rw [paew_executed] at hsi
  obtain ⟨p0, w0, hsub0, hidx⟩ := runSteps_char env plan k step hok hstep
  rw [hidx] at hsi
  cases hsi
  have : p' = p0 := by
    rw [hsub0] at hsub
    cases hsub
    rfl
  subst this
  exact stepResultOf_ok env (1 + k) _ step p' f res ch' hf hres hcr

theorem c7_value_failures_not_detected_witness :
    (⟨1, "t", "d", "completed", none,
        Val.dict [("status".data, Val.str "error".data),
          ("message".data, Val.str "boom".data)]⟩ : StepInfo).status
      = "completed" ∧
    (⟨1, "t", "d", "completed", none,
        Val.dict [("status".data, Val.str "error".data),
          ("message".data, Val.str "boom".data)]⟩ : StepInfo).result
      = Val.dict [("status".data, Val.str "error".data),
          ("message".data, Val.str "boom".data)] := by
  have h := c7_value_failures_not_detected errShapeToolEnv "u"
    [⟨"t", Val.dict [], "d"⟩] (by rfl) 0 ⟨"t", Val.dict [], "d"⟩
    ⟨1, "t", "d", "completed", none,
      Val.dict [("status".data, Val.str "error".data),
        ("message".data, Val.str "boom".data)]⟩
    (fun _ => .ok (Val.dict [("status".data, Val.str "error".data),
      ("message".data, Val.str "boom".data)]))
    (Val.dict []) []
    (Val.dict [("status".data, Val.str "error".data),
      ("message".data, Val.str "boom".data)]) []
    (by rfl) (by rfl) (by rfl) (by rfl) (by rfl) (by rfl)
  exact ⟨h.1, h.2.1⟩

end RevitMCP
